import Mathlib

/-!
# Menu category filter of `script.js`

A shallow embedding of `initializeMenuFilter` and `trackEvent`: the category
index built at start-up, the click handler of the filter buttons, the
callbacks it hands to `requestAnimationFrame` and `setTimeout`, and the
browser's event loop as far as these callbacks see it (a clock, the list of
pending timers in registration order, and the list of pending animation-frame
callbacks).

Menu items are identified by their position in `menuItemsArray`.
An attribute read with `getAttribute` is an `Option String` (`none` is `null`).
Times are in milliseconds. A timeout never runs before it is due, and it waits
for every timeout registered before it with an equal or smaller delay; how late
it runs, and when frames are rendered, is up to the browser. The `mouseenter` and
`mouseleave` listeners only write a button's inline `transform` and are left out.
-/

namespace HookHook

/-! ## Data model -/

/-- One `.menu-item` element: its `data-category` attribute and the three inline
style properties the filter writes. -/
structure MenuItem where
  category : Option String
  display : String
  opacity : String
  transform : String
deriving DecidableEq

/-- One `.filter-btn` element: its `data-category` attribute, whether its class
list holds `active`, and its inline `transform`. -/
structure FilterButton where
  category : Option String
  active : Bool
  transform : String
deriving DecidableEq

/-- The callbacks `initializeMenuFilter` registers with the browser. -/
inductive Callback where
  /-- The frame callback of an accepted click (lines 139-166). -/
  | hideAndReveal (category : Option String)
  /-- The per-item timeout callback of the reveal loop (lines 152-158). -/
  | revealItem (item : Nat)
  /-- The nested frame callback of one item (lines 154-157). -/
  | revealFrame (item : Nat)
  /-- The timeout callback that clears `isFiltering` (lines 163-165). -/
  | resetFiltering
  /-- The start-up timeout callback that applies `burger` (lines 189-202). -/
  | initBurger
deriving DecidableEq

/-- A pending `setTimeout`: the delay it was registered with, the clock value
`due` from which it may run, and its callback. -/
structure Timer where
  due : Nat
  delay : Nat
  callback : Callback
deriving DecidableEq

/-- One call of `trackEvent(eventName, { category })`. -/
structure TrackedEvent where
  eventName : String
  category : Option String
deriving DecidableEq

/-- The `Map` from category label to the array of its items, as an association
list in insertion order. -/
abbrev CategoryMap := List (Option String × List Nat)

/-- Everything the filter reads or writes. -/
structure State where
  now : Nat
  gtagDefined : Bool
  isFiltering : Bool
  currentCategory : Option String
  menuItemsArray : List MenuItem
  filterButtonsArray : List FilterButton
  categoryMap : CategoryMap
  timers : List Timer
  frames : List Callback
  gtagCalls : List TrackedEvent
  consoleLog : List TrackedEvent
deriving DecidableEq

/-! ## The category index (lines 109-117) -/

/-- `Map.prototype.has`. -/
def CategoryMap.has (m : CategoryMap) (key : Option String) : Bool :=
  m.any (fun e => decide (e.1 = key))

/-- `Map.prototype.get`; `none` is `undefined`. -/
def CategoryMap.get (m : CategoryMap) (key : Option String) : Option (List Nat) :=
  (m.find? (fun e => decide (e.1 = key))).map Prod.snd

/-- `Map.prototype.set`: an existing key keeps its place, a new key goes last. -/
def CategoryMap.set (m : CategoryMap) (key : Option String) (value : List Nat) : CategoryMap :=
  if m.has key then m.map (fun e => if e.1 = key then (key, value) else e)
  else m ++ [(key, value)]

/-- `categoryMap.get(category).push(item)`: the array stored under `key` grows
in place. -/
def CategoryMap.push (m : CategoryMap) (key : Option String) (item : Nat) : CategoryMap :=
  m.map (fun e => if e.1 = key then (e.1, e.2 ++ [item]) else e)

/-- The body of the `forEach` of lines 111-117 for the item at position `idx`. -/
def categoryMapVisit (m : CategoryMap) (item : MenuItem) (idx : Nat) : CategoryMap :=
  let category := item.category
  let m1 := if !m.has category then m.set category [] else m
  m1.push category idx

/-- The `forEach` of lines 111-117 over the items from position `idx` on. -/
def categoryMapLoop : List MenuItem → Nat → CategoryMap → CategoryMap
  | [], _, m => m
  | item :: rest, idx, m => categoryMapLoop rest (idx + 1) (categoryMapVisit m item idx)

/-- The finished `categoryMap` of a list of menu items. -/
def buildCategoryMap (menuItemsArray : List MenuItem) : CategoryMap :=
  categoryMapLoop menuItemsArray 0 []

/-! ## Analytics (lines 558-566) -/

/-- The function `trackEvent`: the event goes to `gtag` when that global is
defined, and to the console in every case. -/
def trackEvent (eventName : String) (category : Option String) (s : State) : State :=
  let s1 := if s.gtagDefined then
      { s with gtagCalls := s.gtagCalls ++ [⟨eventName, category⟩] }
    else s
  { s1 with consoleLog := s1.consoleLog ++ [⟨eventName, category⟩] }

/-! ## The click handler (lines 120-170) -/

/-- The `forEach` of lines 129-132 followed by `this.classList.add('active')`. -/
def activateButton (buttons : List FilterButton) (self : Nat) : List FilterButton :=
  let cleared := buttons.map
    (fun btn => { btn with active := false, transform := "translateY(0)" })
  cleared.modify (fun btn => { btn with active := true }) self

/-- The click listener of the filter button at position `self`. A position with no
button has no listener. -/
def clickHandler (self : Nat) (s : State) : State :=
  match s.filterButtonsArray[self]? with
  | none => s
  | some button =>
    if s.isFiltering then s
    else
      let category := button.category
      if category = s.currentCategory then s
      else
        let s1 := { s with
          currentCategory := category
          filterButtonsArray := activateButton s.filterButtonsArray self
          isFiltering := true
          frames := s.frames ++ [Callback.hideAndReveal category] }
        trackEvent "menu_filter" category s1

/-! ## Callbacks -/

/-- The first `forEach` of the frame callback (lines 141-145). -/
def hideAll (items : List MenuItem) : List MenuItem :=
  items.map (fun item =>
    { item with display := "none", opacity := "0", transform := "scale(0.95)" })

/-- The reveal loop (lines 151-160): one timeout per item of `itemsToShow`, the
local `delay` growing by 30 after each. Returns the final `delay` and the
timer list. -/
def revealLoop (now : Nat) : List Nat → Nat → List Timer → Nat × List Timer
  | [], delay, timers => (delay, timers)
  | item :: rest, delay, timers =>
    revealLoop now rest (delay + 30)
      (timers ++ [⟨now + delay, delay, Callback.revealItem item⟩])

/-- The body of the start-up timeout (lines 190-201). -/
def applyBurger (items : List MenuItem) : List MenuItem :=
  items.map (fun item =>
    let itemCategory := item.category
    if itemCategory = some "burger" then
      { item with display := "block", opacity := "1", transform := "scale(1)" }
    else
      { item with display := "none", opacity := "0", transform := "scale(0.95)" })

/-- Run one callback on the state. -/
def runCallback : Callback → State → State
  | Callback.hideAndReveal category, s =>
    let items := hideAll s.menuItemsArray
    let itemsToShow := (s.categoryMap.get category).getD []
    let loop := revealLoop s.now itemsToShow 0 s.timers
    let delay := loop.1
    { s with
      menuItemsArray := items
      timers := loop.2 ++ [⟨s.now + (delay + 100), delay + 100, Callback.resetFiltering⟩] }
  | Callback.revealItem item, s =>
    { s with
      menuItemsArray := s.menuItemsArray.modify (fun it => { it with display := "block" }) item
      frames := s.frames ++ [Callback.revealFrame item] }
  | Callback.revealFrame item, s =>
    { s with
      menuItemsArray := s.menuItemsArray.modify
        (fun it => { it with opacity := "1", transform := "scale(1)" }) item }
  | Callback.resetFiltering, s => { s with isFiltering := false }
  | Callback.initBurger, s => { s with menuItemsArray := applyBurger s.menuItemsArray }

/-! ## Start-up (lines 96-203) -/

/-- The state `initializeMenuFilter` leaves behind, run at clock value 0 on the
given items and buttons: the two flags, the category index, and the one
pending start-up timeout of 100. -/
def initializeMenuFilter (gtagDefined : Bool) (menuItems : List MenuItem)
    (filterButtons : List FilterButton) : State :=
  { now := 0
    gtagDefined := gtagDefined
    isFiltering := false
    currentCategory := some "burger"
    menuItemsArray := menuItems
    filterButtonsArray := filterButtons
    categoryMap := buildCategoryMap menuItems
    timers := [⟨0 + 100, 100, Callback.initBurger⟩]
    frames := []
    gtagCalls := []
    consoleLog := [] }

/-! ## The event loop -/

/-- What the browser can do next: let time pass, deliver a click to a filter
button, run a pending timeout, or render a frame. -/
inductive Input where
  | advance (d : Nat)
  | click (button : Nat)
  | timeout (i : Nat)
  | frame
deriving DecidableEq

/-- A pending timeout may run once the clock has reached its due time and no
timeout registered before it with an equal or smaller delay is still pending. -/
def canFire (s : State) (i : Nat) : Bool :=
  match s.timers[i]? with
  | none => false
  | some t => decide (t.due ≤ s.now) && (s.timers.take i).all (fun u => decide (t.delay < u.delay))

/-- Run the pending timeout at position `i`. -/
def fireTimer (i : Nat) (s : State) : Option State :=
  match s.timers[i]? with
  | none => none
  | some t =>
    if canFire s i then some (runCallback t.callback { s with timers := s.timers.eraseIdx i })
    else none

/-- Render a frame: the animation-frame callbacks pending at its start run in
registration order; callbacks they register wait for the next frame. -/
def runFrame (s : State) : State :=
  s.frames.foldl (fun acc cb => runCallback cb acc) { s with frames := [] }

/-- One step of the event loop; `none` when the input is not possible in `s`. -/
def step (input : Input) (s : State) : Option State :=
  match input with
  | Input.advance d => some { s with now := s.now + d }
  | Input.click button =>
    if button < s.filterButtonsArray.length then some (clickHandler button s) else none
  | Input.timeout i => fireTimer i s
  | Input.frame => some (runFrame s)

/-- Run a sequence of inputs. -/
def run : List Input → State → Option State
  | [], s => some s
  | input :: rest, s => (step input s).bind (run rest)

/-! ## Observations -/

/-- Positions of the items that are displayed (inline `display` other than
`none`). -/
def displayedItems (s : State) : List Nat :=
  (List.range s.menuItemsArray.length).filter
    (fun i => match s.menuItemsArray[i]? with
      | some item => decide (item.display ≠ "none")
      | none => false)

/-- Positions of the items bearing the label `category`, in markup order. -/
def itemsOfCategory (items : List MenuItem) (category : Option String) : List Nat :=
  (List.range items.length).filter
    (fun i => match items[i]? with
      | some item => decide (item.category = category)
      | none => false)

/-- The callback belongs to the hide/reveal/reset sequence of a click. -/
def Callback.isSequence : Callback → Bool
  | Callback.hideAndReveal _ => true
  | Callback.revealItem _ => true
  | Callback.resetFiltering => true
  | _ => false

/-- The reveal schedule in the specification's words: item `i` of the bucket
starts `i × 30` after the sequence starts at `now`. -/
def revealScheduleSpec (now : Nat) (bucket : List Nat) : List Timer :=
  bucket.enum.map (fun p => ⟨now + p.1 * 30, p.1 * 30, Callback.revealItem p.2⟩)

/-- The bucket the frame callback of a click on `category` reads from the index
(`categoryMap.get(category) || []`). -/
def itemsToShow (s : State) (category : Option String) : List Nat :=
  (s.categoryMap.get category).getD []

/-- The timers a callback run on `s` has registered, given the state `s1` it
returned: those after the ones already pending in `s`. -/
def addedTimers (s s1 : State) : List Timer :=
  s1.timers.drop s.timers.length

/-- Positions `idx, idx + 1, ...` of the items of the list bearing `category`. -/
def indicesFrom : List MenuItem → Nat → Option String → List Nat
  | [], _, _ => []
  | item :: rest, idx, category =>
    (if item.category = category then [idx] else []) ++ indicesFrom rest (idx + 1) category

/-! ## The scenario of the specification -/

/-- Items `A1`, `A2` (burger) and `B1` (pizza), with no inline style yet. -/
def scenarioItems : List MenuItem :=
  [⟨some "burger", "", "", ""⟩, ⟨some "burger", "", "", ""⟩, ⟨some "pizza", "", "", ""⟩]

/-- Filter buttons for `burger` (active in the markup), `pizza` and `empty`. -/
def scenarioButtons : List FilterButton :=
  [⟨some "burger", true, ""⟩, ⟨some "pizza", false, ""⟩, ⟨some "empty", false, ""⟩]

/-- The scenario right after `initializeMenuFilter` has returned. -/
def scenarioStart : State := initializeMenuFilter false scenarioItems scenarioButtons

/-- The scenario once the start-up timer has run, at clock value 100. -/
def scenarioSettled : State :=
  (run [Input.advance 100, Input.timeout 0] scenarioStart).getD scenarioStart

/-- The callback is the nested frame callback of some item. -/
def Callback.isRevealFrame : Callback → Bool
  | Callback.revealFrame _ => true
  | _ => false

/-- The shape of the pending work in every reachable state: idle with only
start-up timers pending; or filtering with the hide step still waiting for its
frame; or filtering with the hide step done and the reset timer registered last,
after reveal timers of smaller delay. -/
def SequenceInv (s : State) : Prop :=
  (s.isFiltering = false ∧ (∀ t ∈ s.timers, t.callback = Callback.initBurger) ∧
      (∀ cb ∈ s.frames, cb.isRevealFrame = true)) ∨
  (s.isFiltering = true ∧ (∀ t ∈ s.timers, t.callback = Callback.initBurger) ∧
      ∃ pre c, s.frames = pre ++ [Callback.hideAndReveal c] ∧
        ∀ cb ∈ pre, cb.isRevealFrame = true) ∨
  (s.isFiltering = true ∧ (∀ cb ∈ s.frames, cb.isRevealFrame = true) ∧
      ∃ pre r, s.timers = pre ++ [r] ∧ r.callback = Callback.resetFiltering ∧
        ∀ t ∈ pre, t.callback = Callback.initBurger ∨
          ((∃ x, t.callback = Callback.revealItem x) ∧ t.delay < r.delay))

/-- The scenario after a `pizza` click at 10, its frame at 16, the reveal of `B1`,
a second frame, the start-up timer at 100 and the reset timer at 150. -/
def scenarioAfterPizza : State :=
  (run [Input.advance 10, Input.click 1, Input.advance 6, Input.frame, Input.timeout 1,
    Input.frame, Input.advance 84, Input.timeout 0, Input.advance 50, Input.timeout 0]
    scenarioStart).getD scenarioStart

/-- What the filter's guarantees depend on in an item: its category and its
inline `display`. -/
def styleView (items : List MenuItem) : List (Option String × String) :=
  items.map (fun it => (it.category, it.display))

/-- Every item is displayed exactly when it bears `currentCategory`. -/
def Settled (s : State) : Prop :=
  ∀ (i : Nat) (cd : Option String × String), (styleView s.menuItemsArray)[i]? = some cd →
    (cd.2 ≠ "none" ↔ cd.1 = s.currentCategory)

/-- The invariant of the states reached once the start-up timer is gone: the
index agrees with the items; an idle state is settled; a state waiting for its
hide step has no timer pending; and once the hide step has run, the displayed
items bear `currentCategory` and every other item bearing it still has its
reveal timer pending, before the reset timer. -/
def DisplayInv (s : State) : Prop :=
  (∀ c, itemsToShow s c = itemsOfCategory s.menuItemsArray c) ∧
  ((s.isFiltering = false ∧ s.timers = [] ∧
      (∀ cb ∈ s.frames, cb.isRevealFrame = true) ∧ Settled s) ∨
    (s.isFiltering = true ∧ s.timers = [] ∧
      ∃ pre, s.frames = pre ++ [Callback.hideAndReveal s.currentCategory] ∧
        ∀ cb ∈ pre, cb.isRevealFrame = true) ∨
    (s.isFiltering = true ∧ (∀ cb ∈ s.frames, cb.isRevealFrame = true) ∧
      ∃ pre r, s.timers = pre ++ [r] ∧ r.callback = Callback.resetFiltering ∧
        (∀ t ∈ pre, ∃ x, t.callback = Callback.revealItem x ∧ t.delay < r.delay ∧
          ∀ cd : Option String × String,
            (styleView s.menuItemsArray)[x]? = some cd → cd.1 = s.currentCategory) ∧
        (∀ (i : Nat) (cd : Option String × String),
          (styleView s.menuItemsArray)[i]? = some cd →
          (cd.2 ≠ "none" → cd.1 = s.currentCategory) ∧
          (cd.1 = s.currentCategory →
            cd.2 ≠ "none" ∨ ∃ t ∈ pre, t.callback = Callback.revealItem i))))

/-- The input is a clock advance or a click. -/
def Input.isEarly : Input → Bool
  | Input.advance _ => true
  | Input.click _ => true
  | _ => false

/-- The states between start-up and the start-up timer in which no frame has been
rendered yet: the start-up timer is the only timer, and either nothing has been
clicked or an accepted click waits for its hide step. -/
def StartupInv (s : State) : Prop :=
  (∀ c, itemsToShow s c = itemsOfCategory s.menuItemsArray c) ∧
  (∃ t, s.timers = [t] ∧ t.callback = Callback.initBurger) ∧
  ((s.isFiltering = false ∧ s.frames = [] ∧ s.currentCategory = some "burger") ∨
    (s.isFiltering = true ∧ s.frames = [Callback.hideAndReveal s.currentCategory]))

/-- The scenario with the start-up timer run at 100 and a complete `pizza`
sequence after it. -/
def scenarioPizzaSettled : State :=
  (run ([Input.advance 100] ++ Input.timeout 0 ::
    [Input.click 1, Input.advance 16, Input.frame, Input.timeout 0, Input.frame,
      Input.advance 130, Input.timeout 0]) scenarioStart).getD scenarioStart

/-- The scenario after an `empty` click at 10, its frame at 16, the start-up timer
at 100 and the reset timer at 116. -/
def scenarioAfterEmpty : State :=
  (run [Input.advance 10, Input.click 2, Input.advance 6, Input.frame, Input.advance 84,
    Input.timeout 0, Input.advance 16, Input.timeout 0] scenarioStart).getD scenarioStart

/-! ## The guards of the click handler -/

/-- C1: while `isFiltering` is true a click on any filter button returns the
state it was given: `currentCategory`, `isFiltering`, every item's style, the
pending timers and frame callbacks and both event logs are unchanged, also as a
step of the event loop. -/
theorem clickHandler_while_filtering (s : State) (self : Nat)
    (hbusy : s.isFiltering = true) :
    clickHandler self s = s ∧
      (∀ s1, step (Input.click self) s = some s1 → s1 = s) := by
  have h : clickHandler self s = s := by
    unfold clickHandler
    cases s.filterButtonsArray[self]? <;> simp [hbusy]
  refine ⟨h, ?_⟩
  intro s1 hs
  simp only [step] at hs
  split at hs
  · rw [h] at hs
    exact (Option.some.inj hs).symm
  · cases hs

/-- C1 at a concrete input: the scenario with a `pizza` sequence in flight, and a
click on `empty`. -/
theorem clickHandler_while_filtering_witness :
    (clickHandler 1 scenarioStart).isFiltering = true ∧
      clickHandler 2 (clickHandler 1 scenarioStart) = clickHandler 1 scenarioStart :=
  ⟨by decide, (clickHandler_while_filtering (clickHandler 1 scenarioStart) 2 (by decide)).1⟩

/-- C2: when `isFiltering` is false, a click on a button whose category is
`currentCategory` returns the state it was given, so nothing is hidden, revealed,
scheduled or tracked. -/
theorem clickHandler_same_category (s : State) (self : Nat) (button : FilterButton)
    (hbutton : s.filterButtonsArray[self]? = some button)
    (hidle : s.isFiltering = false)
    (hsame : button.category = s.currentCategory) :
    clickHandler self s = s := by
  unfold clickHandler
  simp [hbutton, hidle, hsame]

/-- C2 at a concrete input: the first click on `burger` right after start-up,
where `currentCategory` still has its initial value. -/
theorem clickHandler_same_category_witness :
    scenarioStart.currentCategory = some "burger" ∧
      clickHandler 0 scenarioStart = scenarioStart :=
  ⟨by decide,
    clickHandler_same_category scenarioStart 0 ⟨some "burger", true, ""⟩
      (by decide) (by decide) (by decide)⟩

/-- C3: a click on a button of category `c` in an idle state with
`currentCategory ≠ c` sets `currentCategory = c` and `isFiltering = true` before
it returns, queues one frame callback, leaves items and timers alone, and
records exactly one `menu_filter` event for `c` (on the console, and in `gtag`
exactly when `gtag` is defined). The event is recorded if and only if the click
is accepted. -/
theorem clickHandler_accepts (s : State) (self : Nat) (button : FilterButton)
    (hbutton : s.filterButtonsArray[self]? = some button) :
    (s.isFiltering = false → button.category ≠ s.currentCategory →
      (clickHandler self s).currentCategory = button.category ∧
      (clickHandler self s).isFiltering = true ∧
      (clickHandler self s).consoleLog
        = s.consoleLog ++ [⟨"menu_filter", button.category⟩] ∧
      (clickHandler self s).gtagCalls
        = s.gtagCalls ++ (if s.gtagDefined then [⟨"menu_filter", button.category⟩] else []) ∧
      (clickHandler self s).frames
        = s.frames ++ [Callback.hideAndReveal button.category] ∧
      (clickHandler self s).menuItemsArray = s.menuItemsArray ∧
      (clickHandler self s).timers = s.timers) ∧
    ((clickHandler self s).consoleLog
        = s.consoleLog ++ [⟨"menu_filter", button.category⟩]
      ↔ (s.isFiltering = false ∧ button.category ≠ s.currentCategory)) ∧
    (¬ (s.isFiltering = false ∧ button.category ≠ s.currentCategory) →
      (clickHandler self s).consoleLog = s.consoleLog ∧
      (clickHandler self s).gtagCalls = s.gtagCalls) := by
  have hacc : s.isFiltering = false → button.category ≠ s.currentCategory →
      clickHandler self s = trackEvent "menu_filter" button.category
        { s with
          currentCategory := button.category
          filterButtonsArray := activateButton s.filterButtonsArray self
          isFiltering := true
          frames := s.frames ++ [Callback.hideAndReveal button.category] } := by
    intro hidle hne
    unfold clickHandler
    simp [hbutton, hidle, hne]
  have hrej : ¬ (s.isFiltering = false ∧ button.category ≠ s.currentCategory) →
      clickHandler self s = s := by
    intro hn
    unfold clickHandler
    simp only [hbutton]
    by_cases hb : s.isFiltering = true
    · simp [hb]
    · have hidle : s.isFiltering = false := by simpa using hb
      have hsame : button.category = s.currentCategory := by
        by_contra hne
        exact hn ⟨hidle, hne⟩
      simp [hidle, hsame]
  refine ⟨?_, ?_, ?_⟩
  · intro hidle hne
    rw [hacc hidle hne]
    unfold trackEvent
    cases hg : s.gtagDefined <;> simp [hg]
  · constructor
    · intro hlog
      by_contra hn
      rw [hrej hn] at hlog
      have := congrArg List.length hlog
      simp at this
    · rintro ⟨hidle, hne⟩
      rw [hacc hidle hne]
      unfold trackEvent
      cases hg : s.gtagDefined <;> simp [hg]
  · intro hn
    rw [hrej hn]
    exact ⟨rfl, rfl⟩

/-- C3 at a concrete input: the click on `pizza` right after start-up, with no
`gtag` defined. -/
theorem clickHandler_accepts_witness :
    scenarioStart.gtagDefined = false ∧
    (clickHandler 1 scenarioStart).currentCategory = some "pizza" ∧
    (clickHandler 1 scenarioStart).consoleLog = [⟨"menu_filter", some "pizza"⟩] ∧
    (clickHandler 1 scenarioStart).gtagCalls = [] :=
  have h := (clickHandler_accepts scenarioStart 1 ⟨some "pizza", false, ""⟩ (by decide)).1
    (by decide) (by decide)
  ⟨by decide, h.1, h.2.2.1, h.2.2.2.1⟩

/-! ## The reveal loop -/

theorem revealLoop_enumFrom (now : Nat) (items : List Nat) (k : Nat) (timers : List Timer) :
    revealLoop now items (k * 30) timers
      = ((k + items.length) * 30,
          timers ++ (items.enumFrom k).map
            (fun p => ⟨now + p.1 * 30, p.1 * 30, Callback.revealItem p.2⟩)) := by
  induction items generalizing k timers with
  | nil => simp [revealLoop]
  | cons item rest ih =>
    have hk : k * 30 + 30 = (k + 1) * 30 := by ring
    simp only [revealLoop, hk, ih, List.enumFrom_cons, List.map_cons, List.length_cons,
      List.append_assoc, List.singleton_append]
    congr 2
    omega

theorem revealLoop_eq (now : Nat) (items : List Nat) (timers : List Timer) :
    revealLoop now items 0 timers
      = (items.length * 30, timers ++ revealScheduleSpec now items) := by
  have h := revealLoop_enumFrom now items 0 timers
  simpa [revealScheduleSpec, List.enum] using h

theorem runCallback_hideAndReveal (category : Option String) (s : State) :
    runCallback (Callback.hideAndReveal category) s
      = { s with
          menuItemsArray := hideAll s.menuItemsArray
          timers := s.timers ++ revealScheduleSpec s.now (itemsToShow s category)
            ++ [⟨s.now + ((itemsToShow s category).length * 30 + 100),
                (itemsToShow s category).length * 30 + 100, Callback.resetFiltering⟩] } := by
  simp only [runCallback, itemsToShow, revealLoop_eq]

theorem revealScheduleSpec_length (now : Nat) (bucket : List Nat) :
    (revealScheduleSpec now bucket).length = bucket.length := by
  simp [revealScheduleSpec]

theorem revealScheduleSpec_getElem? (now : Nat) (bucket : List Nat) (i : Nat) :
    (revealScheduleSpec now bucket)[i]?
      = (bucket[i]?).map (fun x => ⟨now + i * 30, i * 30, Callback.revealItem x⟩) := by
  simp only [revealScheduleSpec, List.getElem?_map, List.enum, List.getElem?_enumFrom]
  cases bucket[i]? <;> simp

theorem addedTimers_hideAndReveal (category : Option String) (s : State) :
    addedTimers s (runCallback (Callback.hideAndReveal category) s)
      = revealScheduleSpec s.now (itemsToShow s category)
        ++ [⟨s.now + ((itemsToShow s category).length * 30 + 100),
            (itemsToShow s category).length * 30 + 100, Callback.resetFiltering⟩] := by
  simp [addedTimers, runCallback_hideAndReveal, List.append_assoc]

theorem mem_revealScheduleSpec {now : Nat} {bucket : List Nat} {t : Timer}
    (h : t ∈ revealScheduleSpec now bucket) :
    ∃ i x, bucket[i]? = some x ∧ t = ⟨now + i * 30, i * 30, Callback.revealItem x⟩ := by
  obtain ⟨i, hi⟩ := List.getElem?_of_mem h
  rw [revealScheduleSpec_getElem?] at hi
  cases hx : bucket[i]? with
  | none => simp [hx] at hi
  | some x =>
    simp only [hx, Option.map_some', Option.some.injEq] at hi
    exact ⟨i, x, hx, hi.symm⟩

/-- C4: the frame callback of an accepted click on `category`, run at clock value
`s.now`, keeps the timers already pending and registers, for the bucket
`[x0, ..., x(n-1)]` it reads from the index, the reveal of `xi` as the `i`-th new
timer with delay `i × 30` and due time `s.now + i × 30`; consecutive reveals are
due exactly 30 apart, every reveal it registers is for an item of that bucket,
and it registers no frame callback. -/
theorem hideAndReveal_schedule (category : Option String) (s : State) :
    (runCallback (Callback.hideAndReveal category) s).timers.take s.timers.length = s.timers ∧
    (∀ i x, (itemsToShow s category)[i]? = some x →
      (addedTimers s (runCallback (Callback.hideAndReveal category) s))[i]?
        = some (Timer.mk (s.now + i * 30) (i * 30) (Callback.revealItem x))) ∧
    (∀ i t u,
      i + 1 < (itemsToShow s category).length →
      (addedTimers s (runCallback (Callback.hideAndReveal category) s))[i]? = some t →
      (addedTimers s (runCallback (Callback.hideAndReveal category) s))[i + 1]? = some u →
      u.due = t.due + 30 ∧ u.delay = t.delay + 30) ∧
    (∀ t x, t ∈ addedTimers s (runCallback (Callback.hideAndReveal category) s) →
      t.callback = Callback.revealItem x →
      ∃ i, (itemsToShow s category)[i]? = some x ∧ t.due = s.now + i * 30) ∧
    (addedTimers s (runCallback (Callback.hideAndReveal category) s)).length
      = (itemsToShow s category).length + 1 ∧
    (runCallback (Callback.hideAndReveal category) s).frames = s.frames := by
  have hlen := revealScheduleSpec_length s.now (itemsToShow s category)
  have hget : ∀ i x, (itemsToShow s category)[i]? = some x →
      (addedTimers s (runCallback (Callback.hideAndReveal category) s))[i]?
        = some (Timer.mk (s.now + i * 30) (i * 30) (Callback.revealItem x)) := by
    intro i x hx
    have hi : i < (revealScheduleSpec s.now (itemsToShow s category)).length := by
      rw [hlen]
      exact (List.getElem?_eq_some_iff.mp hx).1
    rw [addedTimers_hideAndReveal, List.getElem?_append_left hi, revealScheduleSpec_getElem?, hx]
    rfl
  refine ⟨?_, hget, ?_, ?_, ?_, ?_⟩
  · simp [runCallback_hideAndReveal, List.append_assoc]
  · intro i t u hi ht hu
    have h0 : i < (itemsToShow s category).length := by omega
    rw [hget i _ (List.getElem?_eq_getElem h0)] at ht
    rw [hget (i + 1) _ (List.getElem?_eq_getElem hi)] at hu
    cases ht
    cases hu
    constructor <;> simp only <;> ring
  · intro t x ht hcb
    rw [addedTimers_hideAndReveal, List.mem_append] at ht
    rcases ht with ht | ht
    · obtain ⟨i, y, hy, rfl⟩ := mem_revealScheduleSpec ht
      simp only [Callback.revealItem.injEq] at hcb
      subst hcb
      exact ⟨i, hy, rfl⟩
    · simp only [List.mem_singleton] at ht
      subst ht
      cases hcb
  · rw [addedTimers_hideAndReveal]
    simp [hlen]
  · simp [runCallback_hideAndReveal]

/-- C5 fails as stated: in the scenario the `pizza` bucket has one item, and the
timer that clears `isFiltering` is registered with delay 130, not
`(1 − 1) × 30 + 100 = 100`. -/
theorem reset_delay_not_last_offset_plus_margin :
    ¬ (∀ (s : State) (category : Option String) (t : Timer),
        1 ≤ (itemsToShow s category).length →
        t ∈ addedTimers s (runCallback (Callback.hideAndReveal category) s) →
        t.callback = Callback.resetFiltering →
        t.delay = ((itemsToShow s category).length - 1) * 30 + 100) := by
  intro h
  have h1 := h (clickHandler 1 scenarioStart) (some "pizza")
    ⟨130, 130, Callback.resetFiltering⟩ (by decide)
    (by rw [addedTimers_hideAndReveal]; decide) rfl
  revert h1
  decide

/-- C5 as amended: the frame callback of an accepted click registers exactly one
timer that clears `isFiltering`, after all the reveal timers, with delay
`n × 30 + 100` and due time `s.now + n × 30 + 100` for a bucket of `n` items (130
for one item), and that timer's callback sets `isFiltering` to false and
nothing else. -/
theorem reset_delay (category : Option String) (s : State) :
    (addedTimers s (runCallback (Callback.hideAndReveal category) s)).filter
        (fun t => decide (t.callback = Callback.resetFiltering))
      = [⟨s.now + ((itemsToShow s category).length * 30 + 100),
          (itemsToShow s category).length * 30 + 100, Callback.resetFiltering⟩] ∧
    (addedTimers s (runCallback (Callback.hideAndReveal category) s))[
        (itemsToShow s category).length]?
      = some (Timer.mk (s.now + ((itemsToShow s category).length * 30 + 100))
          ((itemsToShow s category).length * 30 + 100) Callback.resetFiltering) ∧
    (∀ s2 : State, runCallback Callback.resetFiltering s2 = { s2 with isFiltering := false }) ∧
    ((itemsToShow s category).length = 1 →
      ∀ t ∈ addedTimers s (runCallback (Callback.hideAndReveal category) s),
        t.callback = Callback.resetFiltering → t.delay = 130 ∧ t.due = s.now + 130) := by
  have hfilter : (revealScheduleSpec s.now (itemsToShow s category)).filter
      (fun t => decide (t.callback = Callback.resetFiltering)) = [] := by
    rw [List.filter_eq_nil_iff]
    intro t ht
    obtain ⟨i, x, _, rfl⟩ := mem_revealScheduleSpec ht
    simp
  have hlen := revealScheduleSpec_length s.now (itemsToShow s category)
  refine ⟨?_, ?_, ?_, ?_⟩
  · rw [addedTimers_hideAndReveal, List.filter_append, hfilter]
    simp
  · rw [addedTimers_hideAndReveal, List.getElem?_append_right (by omega), hlen]
    simp
  · intro s2
    rfl
  · intro hn t ht hcb
    rw [addedTimers_hideAndReveal, List.mem_append] at ht
    rcases ht with ht | ht
    · obtain ⟨i, x, _, rfl⟩ := mem_revealScheduleSpec ht
      cases hcb
    · simp only [List.mem_singleton] at ht
      subst ht
      simp [hn]

/-! ## The category index -/

theorem CategoryMap.get_nil (c : Option String) : CategoryMap.get [] c = none := rfl

theorem CategoryMap.get_cons (e : Option String × List Nat) (m : CategoryMap) (c : Option String) :
    CategoryMap.get (e :: m) c = if e.1 = c then some e.2 else CategoryMap.get m c := by
  unfold CategoryMap.get
  by_cases h : e.1 = c <;> simp [List.find?_cons, h]

theorem CategoryMap.has_cons (e : Option String × List Nat) (m : CategoryMap) (c : Option String) :
    CategoryMap.has (e :: m) c = (decide (e.1 = c) || CategoryMap.has m c) := by
  simp [CategoryMap.has]

theorem CategoryMap.get_of_has_false (m : CategoryMap) (c : Option String)
    (h : m.has c = false) : m.get c = none := by
  induction m with
  | nil => rfl
  | cons e m ih =>
    rw [CategoryMap.has_cons] at h
    simp only [Bool.or_eq_false_iff, decide_eq_false_iff_not] at h
    rw [CategoryMap.get_cons, if_neg h.1, ih h.2]

theorem CategoryMap.get_isSome_of_has (m : CategoryMap) (c : Option String)
    (h : m.has c = true) : ∃ v, m.get c = some v := by
  induction m with
  | nil => simp [CategoryMap.has] at h
  | cons e m ih =>
    rw [CategoryMap.has_cons] at h
    rw [CategoryMap.get_cons]
    by_cases he : e.1 = c
    · exact ⟨e.2, by simp [he]⟩
    · simp only [he, decide_False, Bool.false_or] at h
      simpa [he] using ih h

theorem CategoryMap.get_push (m : CategoryMap) (k : Option String) (i : Nat) (c : Option String) :
    (m.push k i).get c = if k = c then (m.get c).map (fun b => b ++ [i]) else m.get c := by
  induction m with
  | nil => simp [CategoryMap.push, CategoryMap.get]
  | cons e m ih =>
    have hcons : CategoryMap.push (e :: m) k i
        = (if e.1 = k then (e.1, e.2 ++ [i]) else e) :: CategoryMap.push m k i := by
      simp [CategoryMap.push]
    rw [hcons, CategoryMap.get_cons, CategoryMap.get_cons, ih]
    by_cases hk : e.1 = k <;> by_cases hc : e.1 = c <;> by_cases hkc : k = c <;>
      simp_all

theorem CategoryMap.get_append_new (m : CategoryMap) (k : Option String) (v : List Nat)
    (c : Option String) (h : m.has k = false) :
    CategoryMap.get (m ++ [(k, v)]) c = if k = c then some v else m.get c := by
  induction m with
  | nil => simp [CategoryMap.get_cons, CategoryMap.get_nil]
  | cons e m ih =>
    rw [CategoryMap.has_cons] at h
    simp only [Bool.or_eq_false_iff, decide_eq_false_iff_not] at h
    rw [List.cons_append, CategoryMap.get_cons, CategoryMap.get_cons, ih h.2]
    by_cases hc : e.1 = c <;> by_cases hkc : k = c <;> simp_all

theorem get_categoryMapVisit (m : CategoryMap) (item : MenuItem) (idx : Nat) (c : Option String) :
    (categoryMapVisit m item idx).get c
      = if item.category = c then some ((m.get c).getD [] ++ [idx]) else m.get c := by
  unfold categoryMapVisit
  cases hhas : m.has item.category with
  | false =>
    simp only [hhas, Bool.not_false, if_true, CategoryMap.set, Bool.false_eq_true, if_false]
    rw [CategoryMap.get_push, CategoryMap.get_append_new _ _ _ _ hhas]
    by_cases hc : item.category = c
    · subst hc
      simp [CategoryMap.get_of_has_false _ _ hhas]
    · simp [hc]
  | true =>
    simp only [hhas, Bool.not_true, Bool.false_eq_true, if_false]
    rw [CategoryMap.get_push]
    by_cases hc : item.category = c
    · subst hc
      obtain ⟨v, hv⟩ := CategoryMap.get_isSome_of_has _ _ hhas
      simp [hv]
    · simp [hc]

theorem get_categoryMapLoop (items : List MenuItem) (idx : Nat) (m : CategoryMap)
    (c : Option String) :
    (categoryMapLoop items idx m).get c
      = if indicesFrom items idx c = [] then m.get c
        else some ((m.get c).getD [] ++ indicesFrom items idx c) := by
  induction items generalizing idx m with
  | nil => simp [categoryMapLoop, indicesFrom]
  | cons item rest ih =>
    simp only [categoryMapLoop, indicesFrom]
    rw [ih, get_categoryMapVisit]
    by_cases hc : item.category = c
    · by_cases hr : indicesFrom rest (idx + 1) c = [] <;> simp [hc, hr]
    · simp [hc]


theorem indicesFrom_eq (items : List MenuItem) (idx : Nat) (c : Option String) :
    indicesFrom items idx c = (itemsOfCategory items c).map (fun i => i + idx) := by
  induction items generalizing idx with
  | nil => simp [indicesFrom, itemsOfCategory]
  | cons item rest ih =>
    have hrest : itemsOfCategory (item :: rest) c
        = (if item.category = c then [0] else [])
          ++ (itemsOfCategory rest c).map Nat.succ := by
      simp only [itemsOfCategory, List.length_cons, List.range_succ_eq_map, List.filter_cons,
        List.filter_map]
      by_cases hc : item.category = c
      · simp [hc, Function.comp_def]
      · simp [hc, Function.comp_def]
    rw [indicesFrom, ih, hrest, List.map_append, List.map_map]
    congr 1
    · by_cases hc : item.category = c <;> simp [hc]
    · apply List.map_congr_left
      intro i _
      simp only [Function.comp_apply]
      omega

theorem indicesFrom_zero (items : List MenuItem) (c : Option String) :
    indicesFrom items 0 c = itemsOfCategory items c := by
  simp [indicesFrom_eq]

theorem get_buildCategoryMap (items : List MenuItem) (c : Option String) :
    (buildCategoryMap items).get c
      = if itemsOfCategory items c = [] then none else some (itemsOfCategory items c) := by
  unfold buildCategoryMap
  rw [get_categoryMapLoop, indicesFrom_zero]
  simp [CategoryMap.get_nil]

theorem CategoryMap.has_iff_mem_keys (m : CategoryMap) (c : Option String) :
    m.has c = true ↔ c ∈ m.map Prod.fst := by
  simp only [CategoryMap.has, List.any_eq_true, decide_eq_true_eq, List.mem_map]

theorem CategoryMap.keys_push (m : CategoryMap) (k : Option String) (i : Nat) :
    (m.push k i).map Prod.fst = m.map Prod.fst := by
  simp only [CategoryMap.push, List.map_map]
  apply List.map_congr_left
  intro e _
  by_cases h : e.1 = k <;> simp [h]

theorem keys_categoryMapVisit (m : CategoryMap) (item : MenuItem) (idx : Nat) :
    (categoryMapVisit m item idx).map Prod.fst
      = if m.has item.category then m.map Prod.fst else m.map Prod.fst ++ [item.category] := by
  unfold categoryMapVisit
  cases hhas : m.has item.category <;>
    simp [hhas, CategoryMap.keys_push, CategoryMap.set]

theorem nodup_keys_categoryMapVisit (m : CategoryMap) (item : MenuItem) (idx : Nat)
    (h : (m.map Prod.fst).Nodup) : ((categoryMapVisit m item idx).map Prod.fst).Nodup := by
  rw [keys_categoryMapVisit]
  cases hhas : m.has item.category with
  | true => simpa using h
  | false =>
    have hnot : item.category ∉ m.map Prod.fst := by
      rw [← CategoryMap.has_iff_mem_keys, hhas]
      simp
    simp only [Bool.false_eq_true, if_false]
    rw [List.nodup_append]
    refine ⟨h, List.nodup_singleton _, ?_⟩
    intro a ha hb
    rw [List.mem_singleton] at hb
    subst hb
    exact hnot ha

theorem nodup_keys_categoryMapLoop (items : List MenuItem) (idx : Nat) (m : CategoryMap)
    (h : (m.map Prod.fst).Nodup) : ((categoryMapLoop items idx m).map Prod.fst).Nodup := by
  induction items generalizing idx m with
  | nil => simpa [categoryMapLoop] using h
  | cons item rest ih =>
    exact ih (idx + 1) _ (nodup_keys_categoryMapVisit m item idx h)

theorem nodup_keys_buildCategoryMap (items : List MenuItem) :
    ((buildCategoryMap items).map Prod.fst).Nodup :=
  nodup_keys_categoryMapLoop items 0 [] (by simp)

theorem CategoryMap.get_of_mem (m : CategoryMap) (h : (m.map Prod.fst).Nodup)
    (e : Option String × List Nat) (he : e ∈ m) : m.get e.1 = some e.2 := by
  induction m with
  | nil => cases he
  | cons d m ih =>
    rw [List.map_cons, List.nodup_cons] at h
    rw [CategoryMap.get_cons]
    rcases List.mem_cons.mp he with rfl | hmem
    · simp
    · have hne : d.1 ≠ e.1 := by
        intro heq
        exact h.1 (heq ▸ List.mem_map_of_mem Prod.fst hmem)
      rw [if_neg hne]
      exact ih h.2 hmem

theorem CategoryMap.mem_of_get (m : CategoryMap) (c : Option String) (v : List Nat)
    (h : m.get c = some v) : (c, v) ∈ m := by
  induction m with
  | nil => simp [CategoryMap.get_nil] at h
  | cons d m ih =>
    rw [CategoryMap.get_cons] at h
    by_cases hd : d.1 = c
    · rw [if_pos hd] at h
      have : d = (c, v) := by
        cases d
        simp only [Option.some.injEq] at h
        simp_all
      rw [this]
      exact List.mem_cons_self _ _
    · rw [if_neg hd] at h
      exact List.mem_cons_of_mem _ (ih h)

theorem mem_itemsOfCategory (items : List MenuItem) (c : Option String) (i : Nat) :
    i ∈ itemsOfCategory items c ↔ ∃ item, items[i]? = some item ∧ item.category = c := by
  simp only [itemsOfCategory, List.mem_filter, List.mem_range]
  constructor
  · rintro ⟨hi, hp⟩
    rw [List.getElem?_eq_getElem hi] at hp
    exact ⟨items[i], List.getElem?_eq_getElem hi, by simpa using hp⟩
  · rintro ⟨item, hitem, hc⟩
    have hi := (List.getElem?_eq_some_iff.mp hitem).1
    refine ⟨hi, ?_⟩
    rw [hitem]
    simpa using hc

theorem nodup_itemsOfCategory (items : List MenuItem) (c : Option String) :
    (itemsOfCategory items c).Nodup :=
  List.Nodup.filter _ (List.nodup_range _)

theorem sorted_itemsOfCategory (items : List MenuItem) (c : Option String) :
    (itemsOfCategory items c).Sorted (fun a b => a < b) :=
  List.Sorted.filter _ (List.sorted_lt_range _)


/-- C8: the category index built at start-up sends each label to exactly the
positions of the items bearing it, in markup order, and has no entry for a label
no item bears (items without the attribute are indexed under `none`); its keys
are distinct, no bucket is empty, and every item lies in exactly one bucket,
exactly once. -/
theorem buildCategoryMap_partition (items : List MenuItem) :
    (∀ c, (buildCategoryMap items).get c
      = if itemsOfCategory items c = [] then none else some (itemsOfCategory items c)) ∧
    (∀ c, (itemsOfCategory items c).Sorted (fun a b => a < b) ∧
      ∀ i, i ∈ itemsOfCategory items c ↔ ∃ item, items[i]? = some item ∧ item.category = c) ∧
    ((buildCategoryMap items).map Prod.fst).Nodup ∧
    (∀ e ∈ buildCategoryMap items, e.2 = itemsOfCategory items e.1 ∧ e.2 ≠ []) ∧
    (∀ i item, items[i]? = some item →
      ∃ e ∈ buildCategoryMap items, e.1 = item.category ∧ e.2.count i = 1 ∧
        ∀ d ∈ buildCategoryMap items, i ∈ d.2 → d = e) ∧
    (∀ c, (∀ item ∈ items, item.category ≠ c) →
      (buildCategoryMap items).get c = none ∧ (buildCategoryMap items).has c = false) := by
  have hget := get_buildCategoryMap items
  have hkeys := nodup_keys_buildCategoryMap items
  have hentry : ∀ e ∈ buildCategoryMap items, e.2 = itemsOfCategory items e.1 ∧ e.2 ≠ [] := by
    intro e he
    have h1 := CategoryMap.get_of_mem _ hkeys e he
    rw [hget] at h1
    by_cases hnil : itemsOfCategory items e.1 = []
    · simp [hnil] at h1
    · simp only [hnil, if_false, Option.some.injEq] at h1
      rw [← h1]
      exact ⟨rfl, hnil⟩
  refine ⟨hget, ?_, hkeys, hentry, ?_, ?_⟩
  · intro c
    exact ⟨sorted_itemsOfCategory items c, mem_itemsOfCategory items c⟩
  · intro i item hitem
    have hmem : i ∈ itemsOfCategory items item.category :=
      (mem_itemsOfCategory items _ i).mpr ⟨item, hitem, rfl⟩
    have hne : itemsOfCategory items item.category ≠ [] := List.ne_nil_of_mem hmem
    have hg := hget item.category
    rw [if_neg hne] at hg
    refine ⟨(item.category, itemsOfCategory items item.category),
      CategoryMap.mem_of_get _ _ _ hg, rfl, ?_, ?_⟩
    · exact List.count_eq_one_of_mem (nodup_itemsOfCategory items _) hmem
    · intro d hd hid
      have hd2 := (hentry d hd).1
      rw [hd2, mem_itemsOfCategory] at hid
      obtain ⟨item2, hitem2, hcat⟩ := hid
      rw [hitem] at hitem2
      cases hitem2
      cases d
      simp only at hd2 hcat
      simp [hd2, hcat]
  · intro c hc
    have hnil : itemsOfCategory items c = [] := by
      rw [List.eq_nil_iff_forall_not_mem]
      intro i hi
      obtain ⟨item, hitem, hcat⟩ := (mem_itemsOfCategory items c i).mp hi
      exact hc item (List.getElem?_mem hitem) hcat
    have hnone : (buildCategoryMap items).get c = none := by rw [hget, if_pos hnil]
    refine ⟨hnone, ?_⟩
    cases hhas : (buildCategoryMap items).has c with
    | false => rfl
    | true =>
      obtain ⟨v, hv⟩ := CategoryMap.get_isSome_of_has _ _ hhas
      rw [hnone] at hv
      cases hv

/-! ## Hiding and the default view -/

theorem displayedItems_eq_nil (s : State)
    (h : ∀ item ∈ s.menuItemsArray, item.display = "none") : displayedItems s = [] := by
  unfold displayedItems
  rw [List.filter_eq_nil_iff]
  intro i _
  cases hi : s.menuItemsArray[i]? with
  | none => simp
  | some item => simp [h item (List.getElem?_mem hi)]

theorem mem_hideAll {items : List MenuItem} {item : MenuItem} (h : item ∈ hideAll items) :
    item.display = "none" ∧ item.opacity = "0" ∧ item.transform = "scale(0.95)" := by
  simp only [hideAll, List.mem_map] at h
  obtain ⟨a, _, rfl⟩ := h
  exact ⟨rfl, rfl, rfl⟩

theorem itemsToShow_eq (s : State) (c : Option String)
    (hmap : s.categoryMap = buildCategoryMap s.menuItemsArray) :
    itemsToShow s c = itemsOfCategory s.menuItemsArray c := by
  unfold itemsToShow
  rw [hmap, get_buildCategoryMap]
  by_cases h : itemsOfCategory s.menuItemsArray c = [] <;> simp [h]

theorem itemsOfCategory_eq_nil (items : List MenuItem) (c : Option String)
    (h : ∀ item ∈ items, item.category ≠ c) : itemsOfCategory items c = [] := by
  rw [List.eq_nil_iff_forall_not_mem]
  intro i hi
  obtain ⟨item, hitem, hcat⟩ := (mem_itemsOfCategory items c i).mp hi
  exact h item (List.getElem?_mem hitem) hcat

theorem runCallback_isFiltering (cb : Callback) (s : State)
    (h : cb ≠ Callback.resetFiltering) : (runCallback cb s).isFiltering = s.isFiltering := by
  cases cb <;> first | rfl | exact absurd rfl h

/-- The own steps of a request for a category no item bears: a click on a button
whose category `c` differs from `currentCategory` and is borne by no item, in an
idle state, is accepted (`currentCategory = c`,
`isFiltering = true`, one `menu_filter` event, one frame callback queued). When
that frame callback runs, every item is hidden (display `none`, opacity `0`), no
item is displayed, and the only timer it registers is the one clearing
`isFiltering`, with delay 100 and due 100 after the callback ran: no reveal is
scheduled. That timer cannot run before it is due, no other callback clears
`isFiltering`, and running it clears the flag and leaves every item as it
was. -/
theorem empty_category_request (s : State) (self : Nat) (button : FilterButton)
    (hbutton : s.filterButtonsArray[self]? = some button)
    (hidle : s.isFiltering = false)
    (hne : button.category ≠ s.currentCategory)
    (hmap : s.categoryMap = buildCategoryMap s.menuItemsArray)
    (hempty : ∀ item ∈ s.menuItemsArray, item.category ≠ button.category) :
    (clickHandler self s).currentCategory = button.category ∧
    (clickHandler self s).isFiltering = true ∧
    (clickHandler self s).consoleLog = s.consoleLog ++ [⟨"menu_filter", button.category⟩] ∧
    (clickHandler self s).frames = s.frames ++ [Callback.hideAndReveal button.category] ∧
    (∀ s2 : State, s2.categoryMap = s.categoryMap →
      (∀ item ∈ (runCallback (Callback.hideAndReveal button.category) s2).menuItemsArray,
        item.display = "none" ∧ item.opacity = "0") ∧
      displayedItems (runCallback (Callback.hideAndReveal button.category) s2) = [] ∧
      addedTimers s2 (runCallback (Callback.hideAndReveal button.category) s2)
        = [⟨s2.now + 100, 100, Callback.resetFiltering⟩] ∧
      (runCallback (Callback.hideAndReveal button.category) s2).frames = s2.frames ∧
      (runCallback (Callback.hideAndReveal button.category) s2).isFiltering = s2.isFiltering ∧
      (∀ (s4 s5 : State) (i : Nat),
        s4.timers[i]? = some (Timer.mk (s2.now + 100) 100 Callback.resetFiltering) →
        fireTimer i s4 = some s5 →
        s2.now + 100 ≤ s4.now ∧ s5.isFiltering = false ∧
          s5.menuItemsArray = s4.menuItemsArray)) ∧
    (∀ (cb : Callback) (s2 : State), cb ≠ Callback.resetFiltering →
      (runCallback cb s2).isFiltering = s2.isFiltering) := by
  have hclick : clickHandler self s = trackEvent "menu_filter" button.category
      { s with
        currentCategory := button.category
        filterButtonsArray := activateButton s.filterButtonsArray self
        isFiltering := true
        frames := s.frames ++ [Callback.hideAndReveal button.category] } := by
    unfold clickHandler
    simp [hbutton, hidle, hne]
  have hbucket : ∀ s2 : State, s2.categoryMap = s.categoryMap →
      itemsToShow s2 button.category = [] := by
    intro s2 h2
    have h3 : itemsToShow s2 button.category = itemsToShow s button.category := by
      simp [itemsToShow, h2]
    rw [h3, itemsToShow_eq s _ hmap]
    exact itemsOfCategory_eq_nil _ _ hempty
  refine ⟨?_, ?_, ?_, ?_, ?_, runCallback_isFiltering⟩
  · rw [hclick]; unfold trackEvent; cases hg : s.gtagDefined <;> simp [hg]
  · rw [hclick]; unfold trackEvent; cases hg : s.gtagDefined <;> simp [hg]
  · rw [hclick]; unfold trackEvent; cases hg : s.gtagDefined <;> simp [hg]
  · rw [hclick]; unfold trackEvent; cases hg : s.gtagDefined <;> simp [hg]
  · intro s2 h2
    have hitems : (runCallback (Callback.hideAndReveal button.category) s2).menuItemsArray
        = hideAll s2.menuItemsArray := by
      rw [runCallback_hideAndReveal]
    refine ⟨?_, ?_, ?_, ?_, ?_, ?_⟩
    · intro item hitem
      rw [hitems] at hitem
      exact ⟨(mem_hideAll hitem).1, (mem_hideAll hitem).2.1⟩
    · apply displayedItems_eq_nil
      intro item hitem
      rw [hitems] at hitem
      exact (mem_hideAll hitem).1
    · rw [addedTimers_hideAndReveal, hbucket s2 h2]
      simp [revealScheduleSpec]
    · rw [runCallback_hideAndReveal]
    · rw [runCallback_hideAndReveal]
    · intro s4 s5 i hi hfire
      unfold fireTimer at hfire
      rw [hi] at hfire
      simp only at hfire
      split at hfire
      · rename_i hcan
        unfold canFire at hcan
        rw [hi] at hcan
        simp only [Bool.and_eq_true, decide_eq_true_eq] at hcan
        cases hfire
        exact ⟨hcan.1, rfl, rfl⟩
      · cases hfire


/-- The steps of an empty-category request at a concrete input: the click on
`empty` in the scenario once the start-up timer has run; run to the end, the
sequence leaves `isFiltering` false and no item displayed. -/
theorem empty_category_request_witness :
    displayedItems scenarioSettled = [0, 1] ∧
    (clickHandler 2 scenarioSettled).currentCategory = some "empty" ∧
    (clickHandler 2 scenarioSettled).isFiltering = true ∧
    (run [Input.click 2, Input.advance 16, Input.frame, Input.advance 100, Input.timeout 0]
        scenarioSettled).map (fun s => (s.isFiltering, displayedItems s, s.timers, s.frames))
      = some (false, [], [], []) :=
  have h := empty_category_request scenarioSettled 2 ⟨some "empty", false, ""⟩
    (by decide) (by decide) (by decide) (by decide) (by decide)
  ⟨by decide, h.1, h.2.1, by decide⟩

theorem displayedItems_applyBurger (s : State) :
    displayedItems { s with menuItemsArray := applyBurger s.menuItemsArray }
      = itemsOfCategory s.menuItemsArray (some "burger") := by
  unfold displayedItems itemsOfCategory applyBurger
  simp only [List.length_map]
  apply List.filter_congr
  intro i _
  rw [List.getElem?_map]
  cases hi : s.menuItemsArray[i]? with
  | none => simp
  | some item =>
    by_cases hc : item.category = some "burger" <;> simp [hc]

/-- C10 fails as stated: right after `initializeMenuFilter` has returned in the
scenario no item has been touched (the burger items are not yet set to display
`block`, the pizza item is not yet hidden), the default view is still waiting in
a timer of delay 100, and a click on `pizza` is already accepted. -/
theorem default_view_not_immediate :
    scenarioStart.menuItemsArray = scenarioItems ∧
    (¬ ∀ item ∈ scenarioStart.menuItemsArray,
        (item.category = some "burger" →
          item.display = "block" ∧ item.opacity = "1" ∧ item.transform = "scale(1)") ∧
        (item.category ≠ some "burger" →
          item.display = "none" ∧ item.opacity = "0" ∧ item.transform = "scale(0.95)")) ∧
    scenarioStart.timers = [⟨100, 100, Callback.initBurger⟩] ∧
    canFire scenarioStart 0 = false ∧
    (step (Input.click 1) scenarioStart).map
        (fun s => (s.isFiltering, s.currentCategory, s.menuItemsArray))
      = some (true, some "pizza", scenarioItems) := by
  decide

/-- C10 as amended: `initializeMenuFilter` leaves the items untouched and
registers one timer of delay 100 for the default view, which cannot run before
clock value 100. When that timer's callback runs, in one step and on any state,
each item bearing `burger` gets display `block`, opacity `1`, transform
`scale(1)` and every other item gets display `none`, opacity `0`, transform
`scale(0.95)`, so the displayed items are exactly those bearing `burger`;
nothing else in the state changes. On an empty item list, or one with no
`burger` item, no item is displayed afterwards. -/
theorem default_view_by_timer (gtagDefined : Bool) (menuItems : List MenuItem)
    (filterButtons : List FilterButton) :
    (initializeMenuFilter gtagDefined menuItems filterButtons).menuItemsArray = menuItems ∧
    (initializeMenuFilter gtagDefined menuItems filterButtons).timers
      = [⟨100, 100, Callback.initBurger⟩] ∧
    (initializeMenuFilter gtagDefined menuItems filterButtons).frames = [] ∧
    (initializeMenuFilter gtagDefined menuItems filterButtons).currentCategory = some "burger" ∧
    (initializeMenuFilter gtagDefined menuItems filterButtons).isFiltering = false ∧
    (∀ d, canFire { initializeMenuFilter gtagDefined menuItems filterButtons with now := d } 0
      = decide (100 ≤ d)) ∧
    (∀ s : State,
      runCallback Callback.initBurger s
        = { s with menuItemsArray := applyBurger s.menuItemsArray } ∧
      (∀ (i : Nat) (item : MenuItem), s.menuItemsArray[i]? = some item →
        (runCallback Callback.initBurger s).menuItemsArray[i]?
          = some (if item.category = some "burger" then
              { item with display := "block", opacity := "1", transform := "scale(1)" }
            else
              { item with display := "none", opacity := "0", transform := "scale(0.95)" })) ∧
      (runCallback Callback.initBurger s).menuItemsArray.length = s.menuItemsArray.length ∧
      displayedItems (runCallback Callback.initBurger s)
        = itemsOfCategory s.menuItemsArray (some "burger") ∧
      (s.menuItemsArray = [] → (runCallback Callback.initBurger s).menuItemsArray = []) ∧
      ((∀ item ∈ s.menuItemsArray, item.category ≠ some "burger") →
        displayedItems (runCallback Callback.initBurger s) = [])) := by
  refine ⟨rfl, rfl, rfl, rfl, rfl, ?_, ?_⟩
  · intro d
    simp [canFire, initializeMenuFilter]
  · intro s
    have hrun : runCallback Callback.initBurger s
        = { s with menuItemsArray := applyBurger s.menuItemsArray } := rfl
    refine ⟨hrun, ?_, ?_, ?_, ?_, ?_⟩
    · intro i item hitem
      rw [hrun]
      simp only [applyBurger, List.getElem?_map, hitem, Option.map_some']
    · rw [hrun]
      simp [applyBurger]
    · rw [hrun, displayedItems_applyBurger]
    · intro hnil
      rw [hrun]
      simp [applyBurger, hnil]
    · intro hno
      rw [hrun, displayedItems_applyBurger]
      exact itemsOfCategory_eq_nil _ _ hno

theorem foldl_revealFrames (cbs : List Callback) (h : ∀ cb ∈ cbs, cb.isRevealFrame = true)
    (acc : State) :
    (cbs.foldl (fun a cb => runCallback cb a) acc).isFiltering = acc.isFiltering ∧
    (cbs.foldl (fun a cb => runCallback cb a) acc).timers = acc.timers ∧
    (cbs.foldl (fun a cb => runCallback cb a) acc).frames = acc.frames ∧
    (cbs.foldl (fun a cb => runCallback cb a) acc).now = acc.now ∧
    (cbs.foldl (fun a cb => runCallback cb a) acc).categoryMap = acc.categoryMap ∧
    (cbs.foldl (fun a cb => runCallback cb a) acc).currentCategory = acc.currentCategory := by
  induction cbs generalizing acc with
  | nil => simp
  | cons cb rest ih =>
    have hcb := h cb (List.mem_cons_self _ _)
    have hrest := ih (fun c hc => h c (List.mem_cons_of_mem _ hc)) (runCallback cb acc)
    cases cb with
    | revealFrame x =>
      simp only [List.foldl_cons]
      simpa [runCallback] using hrest
    | hideAndReveal c => simp [Callback.isRevealFrame] at hcb
    | revealItem x => simp [Callback.isRevealFrame] at hcb
    | resetFiltering => simp [Callback.isRevealFrame] at hcb
    | initBurger => simp [Callback.isRevealFrame] at hcb

theorem clickHandler_cases (k : Nat) (s : State) :
    clickHandler k s = s ∨
    (s.isFiltering = false ∧ ∃ c, c ≠ s.currentCategory ∧
      (clickHandler k s).isFiltering = true ∧
      (clickHandler k s).currentCategory = c ∧
      (clickHandler k s).timers = s.timers ∧
      (clickHandler k s).frames = s.frames ++ [Callback.hideAndReveal c] ∧
      (clickHandler k s).menuItemsArray = s.menuItemsArray ∧
      (clickHandler k s).categoryMap = s.categoryMap ∧
      (clickHandler k s).now = s.now) := by
  unfold clickHandler
  cases hb : s.filterButtonsArray[k]? with
  | none => exact Or.inl rfl
  | some button =>
    cases hf : s.isFiltering with
    | true => exact Or.inl (by simp)
    | false =>
      by_cases hc : button.category = s.currentCategory
      · exact Or.inl (by simp [hc])
      · refine Or.inr ⟨rfl, button.category, hc, ?_⟩
        unfold trackEvent
        cases hg : s.gtagDefined <;> simp [hc, hg]

theorem sequenceInv_click (k : Nat) (s : State) (h : SequenceInv s) :
    SequenceInv (clickHandler k s) := by
  rcases clickHandler_cases k s with heq | ⟨hidle, c, _, h1, _, h3, h4, _⟩
  · rw [heq]; exact h
  · rcases h with ⟨_, ht, hfr⟩ | ⟨hb, _⟩ | ⟨hb, _⟩
    · refine Or.inr (Or.inl ⟨h1, ?_, s.frames, c, h4, hfr⟩)
      rw [h3]; exact ht
    · rw [hidle] at hb; cases hb
    · rw [hidle] at hb; cases hb

theorem sequenceInv_frame (s : State) (h : SequenceInv s) : SequenceInv (runFrame s) := by
  unfold runFrame
  rcases h with ⟨hidle, ht, hfr⟩ | ⟨hbusy, ht, pre, c, hframes, hpre⟩ | ⟨hbusy, hfr, hB⟩
  · obtain ⟨h1, h2, h3, _⟩ := foldl_revealFrames s.frames hfr { s with frames := [] }
    refine Or.inl ⟨by rw [h1]; exact hidle, by rw [h2]; exact ht, ?_⟩
    rw [h3]; intro cb hcb; cases hcb
  · obtain ⟨h1, h2, h3, h4, _⟩ := foldl_revealFrames pre hpre { s with frames := [] }
    rw [hframes, List.foldl_append, List.foldl_cons, List.foldl_nil, runCallback_hideAndReveal]
    refine Or.inr (Or.inr ⟨by simpa [h1] using hbusy, ?_, ?_⟩)
    · simp only [h3]; intro cb hcb; cases hcb
    · refine ⟨_, _, rfl, rfl, ?_⟩
      intro t htm
      rw [List.mem_append] at htm
      rcases htm with htm | htm
      · rw [h2] at htm
        exact Or.inl (ht t htm)
      · obtain ⟨i, x, hx, rfl⟩ := mem_revealScheduleSpec htm
        have hi := (List.getElem?_eq_some_iff.mp hx).1
        refine Or.inr ⟨⟨x, rfl⟩, ?_⟩
        simp only
        omega
  · obtain ⟨h1, h2, h3, _⟩ := foldl_revealFrames s.frames hfr { s with frames := [] }
    refine Or.inr (Or.inr ⟨by rw [h1]; exact hbusy, ?_, by rw [h2]; exact hB⟩)
    rw [h3]; intro cb hcb; cases hcb

theorem fireTimer_eq_some {i : Nat} {s s1 : State} (h : fireTimer i s = some s1) :
    ∃ t, s.timers[i]? = some t ∧ t.due ≤ s.now ∧
      (∀ u ∈ s.timers.take i, t.delay < u.delay) ∧
      s1 = runCallback t.callback { s with timers := s.timers.eraseIdx i } := by
  unfold fireTimer at h
  cases ht : s.timers[i]? with
  | none => simp [ht] at h
  | some t =>
    simp only [ht] at h
    split at h
    · rename_i hcan
      unfold canFire at hcan
      simp only [ht, Bool.and_eq_true, decide_eq_true_eq, List.all_eq_true] at hcan
      exact ⟨t, rfl, hcan.1, hcan.2, (Option.some.inj h).symm⟩
    · cases h

theorem sequenceInv_timeout (i : Nat) (s s1 : State) (h : SequenceInv s)
    (hfire : fireTimer i s = some s1) : SequenceInv s1 := by
  obtain ⟨t, ht, _, hord, rfl⟩ := fireTimer_eq_some hfire
  have hsub : ∀ u ∈ s.timers.eraseIdx i, u ∈ s.timers := fun u hu => List.mem_of_mem_eraseIdx hu
  rcases h with ⟨hidle, htm, hfr⟩ | ⟨hbusy, htm, hA⟩ | ⟨hbusy, hfr, pre, r, htimers, hr, hpre⟩
  · rw [htm t (List.getElem?_mem ht)]
    exact Or.inl ⟨hidle, fun u hu => htm u (hsub u hu), hfr⟩
  · rw [htm t (List.getElem?_mem ht)]
    exact Or.inr (Or.inl ⟨hbusy, fun u hu => htm u (hsub u hu), hA⟩)
  · rcases Nat.lt_trichotomy i pre.length with hlt | heq | hgt
    · have hti : pre[i]? = some t := by
        rw [htimers, List.getElem?_append_left (by simpa using hlt)] at ht
        simpa using ht
      have herase : s.timers.eraseIdx i = pre.eraseIdx i ++ [r] := by
        rw [htimers, List.eraseIdx_append_of_lt_length hlt]
      have hpre2 : ∀ u ∈ pre.eraseIdx i, u.callback = Callback.initBurger ∨
          ((∃ x, u.callback = Callback.revealItem x) ∧ u.delay < r.delay) :=
        fun u hu => hpre u (List.mem_of_mem_eraseIdx hu)
      rcases hpre t (List.getElem?_mem hti) with hcb | ⟨⟨x, hcb⟩, _⟩
      · rw [hcb]
        exact Or.inr (Or.inr ⟨hbusy, hfr, pre.eraseIdx i, r, herase, hr, hpre2⟩)
      · rw [hcb]
        refine Or.inr (Or.inr ⟨hbusy, ?_, pre.eraseIdx i, r, herase, hr, hpre2⟩)
        intro cb hcbm
        simp only [runCallback, List.mem_append, List.mem_singleton] at hcbm
        rcases hcbm with hcbm | rfl
        · exact hfr cb hcbm
        · rfl
    · have htr : t = r := by
        rw [htimers, List.getElem?_append_right (by omega), heq] at ht
        simpa using ht.symm
      subst htr
      have htake : s.timers.take i = pre := by
        rw [htimers, heq]
        exact List.take_left _ _
      have herase : s.timers.eraseIdx i = pre := by
        rw [htimers, List.eraseIdx_append_of_length_le (by omega), heq]
        simp
      rw [hr]
      refine Or.inl ⟨rfl, ?_, hfr⟩
      intro u hu
      simp only [runCallback, herase] at hu
      rcases hpre u hu with hcb | ⟨_, hlt⟩
      · exact hcb
      · have := hord u (by rw [htake]; exact hu)
        omega
    · rw [htimers] at ht
      have hlen : (pre ++ [r]).length ≤ i := by simp; omega
      rw [List.getElem?_eq_none hlen] at ht
      cases ht

theorem sequenceInv_step (input : Input) (s s1 : State) (h : SequenceInv s)
    (hstep : step input s = some s1) : SequenceInv s1 := by
  cases input with
  | advance d =>
    simp only [step, Option.some.injEq] at hstep
    subst hstep
    exact h
  | click k =>
    simp only [step] at hstep
    split at hstep
    · cases hstep
      exact sequenceInv_click k s h
    · cases hstep
  | timeout i => exact sequenceInv_timeout i s s1 h hstep
  | frame =>
    simp only [step, Option.some.injEq] at hstep
    subst hstep
    exact sequenceInv_frame s h

theorem sequenceInv_run (inputs : List Input) (s s1 : State) (h : SequenceInv s)
    (hrun : run inputs s = some s1) : SequenceInv s1 := by
  induction inputs generalizing s with
  | nil =>
    simp only [run, Option.some.injEq] at hrun
    subst hrun
    exact h
  | cons input rest ih =>
    simp only [run] at hrun
    cases hs : step input s with
    | none => simp [hs] at hrun
    | some s2 =>
      rw [hs] at hrun
      exact ih s2 (sequenceInv_step input s s2 h hs) hrun

theorem sequenceInv_initializeMenuFilter (gtagDefined : Bool) (menuItems : List MenuItem)
    (filterButtons : List FilterButton) :
    SequenceInv (initializeMenuFilter gtagDefined menuItems filterButtons) := by
  refine Or.inl ⟨rfl, ?_, ?_⟩
  · intro t ht
    simp only [initializeMenuFilter, List.mem_singleton] at ht
    subst ht
    rfl
  · intro cb hcb
    cases hcb

theorem isSequence_of_isRevealFrame {cb : Callback} (h : cb.isRevealFrame = true) :
    cb.isSequence = false := by
  cases cb <;> first | rfl | simp [Callback.isRevealFrame] at h

/-- C7: in every state reached from start-up by any sequence of clicks, timer
runs, frames and clock advances: `isFiltering` is true exactly while a hide step
or a reset timer is pending; when it is false no hide step, reveal timer or reset
timer is pending, so a click that is accepted (changes the state) finds none of
them; while it is true every click returns the state unchanged; a pending reveal
timer always has a reset timer of larger delay pending behind it; and the hide
step registers each reveal with a delay and due time strictly below those of the
reset it registers. -/
theorem one_sequence_in_flight (gtagDefined : Bool) (menuItems : List MenuItem)
    (filterButtons : List FilterButton) (inputs : List Input) (s : State)
    (hrun : run inputs (initializeMenuFilter gtagDefined menuItems filterButtons) = some s) :
    (s.isFiltering = false →
      (∀ t ∈ s.timers, t.callback.isSequence = false) ∧
      (∀ cb ∈ s.frames, cb.isSequence = false)) ∧
    (∀ k, clickHandler k s ≠ s →
      s.isFiltering = false ∧
      (∀ t ∈ s.timers, t.callback.isSequence = false) ∧
      (∀ cb ∈ s.frames, cb.isSequence = false)) ∧
    (s.isFiltering = true → ∀ k, clickHandler k s = s) ∧
    (s.isFiltering = true ↔
      ((∃ c, Callback.hideAndReveal c ∈ s.frames) ∨
        (∃ t ∈ s.timers, t.callback = Callback.resetFiltering))) ∧
    (∀ t ∈ s.timers, ∀ x, t.callback = Callback.revealItem x →
      ∃ r ∈ s.timers, r.callback = Callback.resetFiltering ∧ t.delay < r.delay) ∧
    (∀ c t x, t ∈ addedTimers s (runCallback (Callback.hideAndReveal c) s) →
      t.callback = Callback.revealItem x →
      t.delay < (itemsToShow s c).length * 30 + 100 ∧
      t.due < s.now + ((itemsToShow s c).length * 30 + 100)) := by
  have hinv : SequenceInv s :=
    sequenceInv_run inputs _ s
      (sequenceInv_initializeMenuFilter gtagDefined menuItems filterButtons) hrun
  have hidle : s.isFiltering = false →
      (∀ t ∈ s.timers, t.callback.isSequence = false) ∧
      (∀ cb ∈ s.frames, cb.isSequence = false) := by
    intro hf
    rcases hinv with ⟨_, htm, hfr⟩ | ⟨hb, _⟩ | ⟨hb, _⟩
    · refine ⟨fun t ht => ?_, fun cb hcb => isSequence_of_isRevealFrame (hfr cb hcb)⟩
      rw [htm t ht]
      rfl
    · rw [hf] at hb; cases hb
    · rw [hf] at hb; cases hb
  have hbusy : s.isFiltering = true → ∀ k, clickHandler k s = s := by
    intro hb k
    unfold clickHandler
    cases s.filterButtonsArray[k]? <;> simp [hb]
  refine ⟨hidle, ?_, hbusy, ?_, ?_, ?_⟩
  · intro k hk
    cases hf : s.isFiltering with
    | true => exact absurd (hbusy hf k) hk
    | false => exact ⟨rfl, hidle hf⟩
  · constructor
    · intro hb
      rcases hinv with ⟨hf, _⟩ | ⟨_, _, pre, c, hframes, _⟩ | ⟨_, _, pre, r, htimers, hr, _⟩
      · rw [hb] at hf; cases hf
      · exact Or.inl ⟨c, by rw [hframes]; simp⟩
      · exact Or.inr ⟨r, by rw [htimers]; simp, hr⟩
    · intro hp
      cases hf : s.isFiltering with
      | true => rfl
      | false =>
        obtain ⟨h1, h2⟩ := hidle hf
        rcases hp with ⟨c, hc⟩ | ⟨t, ht, hcb⟩
        · have := h2 _ hc
          simp [Callback.isSequence] at this
        · have := h1 t ht
          rw [hcb] at this
          simp [Callback.isSequence] at this
  · intro t ht x hcb
    rcases hinv with ⟨_, htm, _⟩ | ⟨_, htm, _⟩ | ⟨_, _, pre, r, htimers, hr, hpre⟩
    · rw [htm t ht] at hcb; cases hcb
    · rw [htm t ht] at hcb; cases hcb
    · rw [htimers, List.mem_append, List.mem_singleton] at ht
      rcases ht with ht | rfl
      · rcases hpre t ht with hi | ⟨_, hlt⟩
        · rw [hi] at hcb; cases hcb
        · exact ⟨r, by rw [htimers]; simp, hr, hlt⟩
      · rw [hr] at hcb; cases hcb
  · intro c t x ht hcb
    rw [addedTimers_hideAndReveal, List.mem_append] at ht
    rcases ht with ht | ht
    · obtain ⟨i, y, hy, rfl⟩ := mem_revealScheduleSpec ht
      have hi := (List.getElem?_eq_some_iff.mp hy).1
      simp only
      constructor <;> omega
    · simp only [List.mem_singleton] at ht
      subst ht
      cases hcb

/-- C7 at a concrete input: the scenario after a complete `pizza` sequence; the
next click, on `empty`, is accepted and finds nothing pending. -/
theorem one_sequence_in_flight_witness :
    scenarioAfterPizza.isFiltering = false ∧
    clickHandler 2 scenarioAfterPizza ≠ scenarioAfterPizza ∧
    (∀ t ∈ scenarioAfterPizza.timers, t.callback.isSequence = false) ∧
    (∀ cb ∈ scenarioAfterPizza.frames, cb.isSequence = false) :=
  have h := one_sequence_in_flight false scenarioItems scenarioButtons
    [Input.advance 10, Input.click 1, Input.advance 6, Input.frame, Input.timeout 1,
      Input.frame, Input.advance 84, Input.timeout 0, Input.advance 50, Input.timeout 0]
    scenarioAfterPizza (by decide)
  ⟨by decide, by decide, (h.2.1 2 (by decide)).2.1, (h.2.1 2 (by decide)).2.2⟩

theorem map_modify_comm {α β : Type} (g : α → β) (f : α → α) (f2 : β → β)
    (h : ∀ a, g (f a) = f2 (g a)) (k : Nat) (l : List α) :
    (l.modify f k).map g = (l.map g).modify f2 k := by
  apply List.ext_getElem?
  intro i
  simp only [List.getElem?_map, List.getElem?_modify]
  cases l[i]? with
  | none => rfl
  | some a =>
    by_cases hk : k = i <;> simp [hk, h]

theorem styleView_getElem? (items : List MenuItem) (i : Nat) :
    (styleView items)[i]? = (items[i]?).map (fun it => (it.category, it.display)) := by
  simp [styleView]

theorem itemsOfCategory_congr (a b : List MenuItem) (c : Option String)
    (h : (styleView a).map Prod.fst = (styleView b).map Prod.fst) :
    itemsOfCategory a c = itemsOfCategory b c := by
  have hlen : a.length = b.length := by
    have := congrArg List.length h
    simpa [styleView] using this
  unfold itemsOfCategory
  rw [hlen]
  apply List.filter_congr
  intro i _
  have hi := congrArg (fun l => l[i]?) h
  simp only [styleView, List.map_map, List.getElem?_map] at hi
  cases ha : a[i]? <;> cases hb : b[i]? <;> simp_all

theorem displayedItems_of_settled (s : State) (h : Settled s) :
    displayedItems s = itemsOfCategory s.menuItemsArray s.currentCategory := by
  unfold displayedItems itemsOfCategory
  apply List.filter_congr
  intro i _
  cases hi : s.menuItemsArray[i]? with
  | none => rfl
  | some item =>
    have := h i (item.category, item.display) (by rw [styleView_getElem?, hi]; rfl)
    simp only at this
    by_cases hd : item.display = "none"
    · have hc : ¬ item.category = s.currentCategory := fun hc => (this.mpr hc) hd
      simp [hd, hc]
    · have hc : item.category = s.currentCategory := this.mp hd
      simp [hd, hc]

theorem styleView_revealFrame (x : Nat) (s : State) :
    styleView (runCallback (Callback.revealFrame x) s).menuItemsArray
      = styleView s.menuItemsArray := by
  simp only [runCallback, styleView]
  apply List.ext_getElem?
  intro i
  simp only [List.getElem?_map, List.getElem?_modify]
  cases s.menuItemsArray[i]? with
  | none => rfl
  | some a => by_cases hk : x = i <;> simp [hk]

theorem styleView_revealItem (x : Nat) (s : State) :
    styleView (runCallback (Callback.revealItem x) s).menuItemsArray
      = (styleView s.menuItemsArray).modify (fun cd => (cd.1, "block")) x := by
  simp only [runCallback, styleView]
  exact map_modify_comm (fun it : MenuItem => (it.category, it.display))
    (fun it => { it with display := "block" }) (fun cd => (cd.1, "block")) (fun a => rfl) x _

theorem styleView_hideAll (items : List MenuItem) :
    styleView (hideAll items) = (styleView items).map (fun cd => (cd.1, "none")) := by
  simp [styleView, hideAll, Function.comp_def]

theorem styleView_applyBurger (items : List MenuItem) :
    styleView (applyBurger items)
      = (styleView items).map
          (fun cd => (cd.1, if cd.1 = some "burger" then "block" else "none")) := by
  simp only [styleView, applyBurger, List.map_map]
  apply List.map_congr_left
  intro it _
  by_cases hc : it.category = some "burger" <;> simp [hc]

theorem foldl_revealFrames_styleView (cbs : List Callback)
    (h : ∀ cb ∈ cbs, cb.isRevealFrame = true) (acc : State) :
    styleView (cbs.foldl (fun a cb => runCallback cb a) acc).menuItemsArray
      = styleView acc.menuItemsArray := by
  induction cbs generalizing acc with
  | nil => rfl
  | cons cb rest ih =>
    have hcb := h cb (List.mem_cons_self _ _)
    have hrest := ih (fun c hc => h c (List.mem_cons_of_mem _ hc)) (runCallback cb acc)
    cases cb with
    | revealFrame x =>
      rw [List.foldl_cons, hrest, styleView_revealFrame]
    | hideAndReveal c => simp [Callback.isRevealFrame] at hcb
    | revealItem x => simp [Callback.isRevealFrame] at hcb
    | resetFiltering => simp [Callback.isRevealFrame] at hcb
    | initBurger => simp [Callback.isRevealFrame] at hcb

theorem index_agrees_transfer (s s1 : State) (hcm : s1.categoryMap = s.categoryMap)
    (hview : (styleView s1.menuItemsArray).map Prod.fst
      = (styleView s.menuItemsArray).map Prod.fst)
    (h : ∀ c, itemsToShow s c = itemsOfCategory s.menuItemsArray c) :
    ∀ c, itemsToShow s1 c = itemsOfCategory s1.menuItemsArray c := by
  intro c
  have h1 : itemsToShow s1 c = itemsToShow s c := by simp [itemsToShow, hcm]
  rw [h1, h c]
  exact (itemsOfCategory_congr _ _ c hview).symm

theorem getElem?_modify_some {α : Type} (f : α → α) (k i : Nat) (l : List α) (b : α)
    (h : (l.modify f k)[i]? = some b) :
    ∃ a, l[i]? = some a ∧ b = if k = i then f a else a := by
  rw [List.getElem?_modify] at h
  cases ha : l[i]? with
  | none => simp [ha] at h
  | some a =>
    simp only [ha, Option.map_eq_map, Option.map_some', Option.some.injEq] at h
    exact ⟨a, rfl, h.symm⟩

theorem map_fst_modify_block (x : Nat) (v : List (Option String × String)) :
    (v.modify (fun cd => (cd.1, "block")) x).map Prod.fst = v.map Prod.fst := by
  apply List.ext_getElem?
  intro i
  simp only [List.getElem?_map, List.getElem?_modify]
  cases v[i]? with
  | none => rfl
  | some a => by_cases hk : x = i <;> simp [hk]

theorem displayInv_click (k : Nat) (s : State) (h : DisplayInv s) :
    DisplayInv (clickHandler k s) := by
  rcases clickHandler_cases k s with heq | ⟨hidle, c, _, h1, h2, h3, h4, h5, h6, _⟩
  · rw [heq]; exact h
  · obtain ⟨hmap, hcase⟩ := h
    refine ⟨index_agrees_transfer s _ h6 (by rw [h5]) hmap, ?_⟩
    rcases hcase with ⟨_, ht, hfr, _⟩ | ⟨hb, _⟩ | ⟨hb, _⟩
    · refine Or.inr (Or.inl ⟨h1, by rw [h3]; exact ht, s.frames, ?_, hfr⟩)
      rw [h4, h2]
    · rw [hidle] at hb; cases hb
    · rw [hidle] at hb; cases hb

theorem runFrame_revealFrames (s : State) (hfr : ∀ cb ∈ s.frames, cb.isRevealFrame = true) :
    (runFrame s).isFiltering = s.isFiltering ∧ (runFrame s).timers = s.timers ∧
    (runFrame s).frames = [] ∧ (runFrame s).categoryMap = s.categoryMap ∧
    (runFrame s).currentCategory = s.currentCategory ∧
    styleView (runFrame s).menuItemsArray = styleView s.menuItemsArray := by
  obtain ⟨h1, h2, h3, _, h5, h6⟩ := foldl_revealFrames s.frames hfr { s with frames := [] }
  have hv := foldl_revealFrames_styleView s.frames hfr { s with frames := [] }
  exact ⟨h1, h2, h3, h5, h6, hv⟩

theorem runFrame_hide (s : State) (pre : List Callback) (c : Option String)
    (hframes : s.frames = pre ++ [Callback.hideAndReveal c])
    (hpre : ∀ cb ∈ pre, cb.isRevealFrame = true) :
    ∃ p : State, p.isFiltering = s.isFiltering ∧ p.timers = s.timers ∧ p.frames = [] ∧
      p.categoryMap = s.categoryMap ∧ p.currentCategory = s.currentCategory ∧
      styleView p.menuItemsArray = styleView s.menuItemsArray ∧
      runFrame s = runCallback (Callback.hideAndReveal c) p := by
  obtain ⟨h1, h2, h3, _, h5, h6⟩ := foldl_revealFrames pre hpre { s with frames := [] }
  have hv := foldl_revealFrames_styleView pre hpre { s with frames := [] }
  refine ⟨_, h1, h2, h3, h5, h6, hv, ?_⟩
  unfold runFrame
  rw [hframes, List.foldl_append, List.foldl_cons, List.foldl_nil]

theorem displayInv_frame (s : State) (h : DisplayInv s) : DisplayInv (runFrame s) := by
  obtain ⟨hmap, hcase⟩ := h
  rcases hcase with ⟨hidle, ht, hfr, hset⟩ | ⟨hbusy, ht, pre, hframes, hpre⟩ |
      ⟨hbusy, hfr, hB⟩
  · obtain ⟨h1, h2, h3, h5, h6, hv⟩ := runFrame_revealFrames s hfr
    refine ⟨index_agrees_transfer s _ h5 (by rw [hv]) hmap, Or.inl ⟨by rw [h1]; exact hidle,
      by rw [h2]; exact ht, (by rw [h3]; intro cb hcb; cases hcb), ?_⟩⟩
    intro i cd hcd
    rw [hv] at hcd
    rw [h6]
    exact hset i cd hcd
  · obtain ⟨p, h1, h2, h3, h5, h6, hv, hrun⟩ := runFrame_hide s pre _ hframes hpre
    rw [hrun, runCallback_hideAndReveal]
    have hbucket : itemsToShow p s.currentCategory
        = itemsOfCategory s.menuItemsArray s.currentCategory := by
      rw [← hmap]
      simp [itemsToShow, h5]
    have hview : styleView (hideAll p.menuItemsArray)
        = (styleView s.menuItemsArray).map (fun cd => (cd.1, "none")) := by
      rw [styleView_hideAll, hv]
    refine ⟨index_agrees_transfer s _ h5 ?_ hmap, Or.inr (Or.inr ⟨by simpa [h1] using hbusy,
      ?_, ?_⟩)⟩
    · simp only [hview, List.map_map]
      rfl
    · simp only [h3]; intro cb hcb; cases hcb
    · refine ⟨revealScheduleSpec p.now (itemsToShow p s.currentCategory),
        ⟨p.now + ((itemsToShow p s.currentCategory).length * 30 + 100),
          (itemsToShow p s.currentCategory).length * 30 + 100, Callback.resetFiltering⟩,
        ?_, rfl, ?_, ?_⟩
      · simp only [h2, ht, List.nil_append]
      · intro t htm
        obtain ⟨i, x, hx, rfl⟩ := mem_revealScheduleSpec htm
        have hi := (List.getElem?_eq_some_iff.mp hx).1
        refine ⟨x, rfl, by simp only; omega, ?_⟩
        intro cd hcd
        simp only [h6, hview, List.getElem?_map] at hcd ⊢
        have hxmem : x ∈ itemsOfCategory s.menuItemsArray s.currentCategory := by
          rw [← hbucket]
          exact List.getElem?_mem hx
        obtain ⟨item, hitem, hcat⟩ := (mem_itemsOfCategory _ _ _).mp hxmem
        rw [styleView_getElem?, hitem] at hcd
        simp only [Option.map_some', Option.some.injEq] at hcd
        rw [← hcd]
        exact hcat
      · intro i cd hcd
        simp only [h6, hview, List.getElem?_map] at hcd ⊢
        rw [styleView_getElem?] at hcd
        cases hitem : s.menuItemsArray[i]? with
        | none => simp [hitem] at hcd
        | some item =>
          simp only [hitem, Option.map_some', Option.some.injEq] at hcd
          subst hcd
          refine ⟨fun hne => absurd rfl hne, fun hcat => Or.inr ?_⟩
          have himem : i ∈ itemsToShow p s.currentCategory := by
            rw [hbucket]
            exact (mem_itemsOfCategory _ _ _).mpr ⟨item, hitem, hcat⟩
          obtain ⟨k, hk⟩ := List.getElem?_of_mem himem
          refine ⟨⟨p.now + k * 30, k * 30, Callback.revealItem i⟩, ?_, rfl⟩
          apply List.getElem?_mem (n := k)
          rw [revealScheduleSpec_getElem?, hk]
          rfl
  · obtain ⟨h1, h2, h3, h5, h6, hv⟩ := runFrame_revealFrames s hfr
    refine ⟨index_agrees_transfer s _ h5 (by rw [hv]) hmap, Or.inr (Or.inr
      ⟨by rw [h1]; exact hbusy, (by rw [h3]; intro cb hcb; cases hcb), ?_⟩)⟩
    rw [h2, hv, h6]
    exact hB

theorem displayInv_timeout (i : Nat) (s s1 : State) (h : DisplayInv s)
    (hfire : fireTimer i s = some s1) : DisplayInv s1 := by
  obtain ⟨t, ht, _, hord, rfl⟩ := fireTimer_eq_some hfire
  obtain ⟨hmap, hcase⟩ := h
  rcases hcase with ⟨_, htm, _⟩ | ⟨_, htm, _⟩ |
      ⟨hbusy, hfr, pre, r, htimers, hr, hpre, hpt⟩
  · rw [htm] at ht; cases ht
  · rw [htm] at ht; cases ht
  · rcases Nat.lt_trichotomy i pre.length with hlt | heq | hgt
    · have hti : pre[i]? = some t := by
        rw [htimers, List.getElem?_append_left (by simpa using hlt)] at ht
        simpa using ht
      have herase : s.timers.eraseIdx i = pre.eraseIdx i ++ [r] := by
        rw [htimers, List.eraseIdx_append_of_lt_length hlt]
      obtain ⟨x, hcb, _, hxcat⟩ := hpre t (List.getElem?_mem hti)
      rw [hcb]
      have hv := styleView_revealItem x { s with timers := s.timers.eraseIdx i }
      generalize hs1 : runCallback (Callback.revealItem x)
        { s with timers := s.timers.eraseIdx i } = s1 at hv
      have e1 : s1.isFiltering = s.isFiltering := by rw [← hs1]; rfl
      have e2 : s1.timers = pre.eraseIdx i ++ [r] := by rw [← hs1, ← herase]; rfl
      have e3 : s1.frames = s.frames ++ [Callback.revealFrame x] := by rw [← hs1]; rfl
      have e4 : s1.categoryMap = s.categoryMap := by rw [← hs1]; rfl
      have e5 : s1.currentCategory = s.currentCategory := by rw [← hs1]; rfl
      simp only at hv
      refine ⟨index_agrees_transfer s _ e4 (by rw [hv, map_fst_modify_block]) hmap,
        Or.inr (Or.inr ⟨by rw [e1]; exact hbusy, ?_, pre.eraseIdx i, r, e2, hr, ?_, ?_⟩)⟩
      · intro cb hcbm
        rw [e3, List.mem_append, List.mem_singleton] at hcbm
        rcases hcbm with hcbm | rfl
        · exact hfr cb hcbm
        · rfl
      · intro u hu
        obtain ⟨y, hy1, hy2, hy3⟩ := hpre u (List.mem_of_mem_eraseIdx hu)
        refine ⟨y, hy1, hy2, ?_⟩
        intro cd hcd
        rw [hv] at hcd
        obtain ⟨cd0, hcd0, rfl⟩ := getElem?_modify_some _ _ _ _ _ hcd
        rw [e5]
        by_cases hxy : x = y
        · simpa [hxy] using hy3 cd0 hcd0
        · simpa [hxy] using hy3 cd0 hcd0
      · intro j cd hcd
        rw [hv] at hcd
        obtain ⟨cd0, hcd0, rfl⟩ := getElem?_modify_some _ _ _ _ _ hcd
        rw [e5]
        by_cases hxj : x = j
        · subst hxj
          simp only [if_true]
          exact ⟨fun _ => hxcat cd0 hcd0, fun _ => Or.inl (by decide)⟩
        · simp only [hxj, if_false]
          refine ⟨(hpt j cd0 hcd0).1, fun hcat => ?_⟩
          rcases (hpt j cd0 hcd0).2 hcat with hd | ⟨u, hu, hucb⟩
          · exact Or.inl hd
          · refine Or.inr ⟨u, ?_, hucb⟩
            obtain ⟨k, hk⟩ := List.getElem?_of_mem hu
            rw [List.mem_eraseIdx_iff_getElem?]
            refine ⟨k, ?_, hk⟩
            intro hki
            rw [hki, hti] at hk
            cases hk
            rw [hcb] at hucb
            cases hucb
            exact hxj rfl
    · have htr : t = r := by
        rw [htimers, List.getElem?_append_right (by omega), heq] at ht
        simpa using ht.symm
      subst htr
      have htake : s.timers.take i = pre := by
        rw [htimers, heq]
        exact List.take_left _ _
      have hnil : pre = [] := by
        rw [List.eq_nil_iff_forall_not_mem]
        intro u hu
        obtain ⟨_, _, hlt, _⟩ := hpre u hu
        have := hord u (by rw [htake]; exact hu)
        omega
      have herase : s.timers.eraseIdx i = [] := by
        rw [htimers, List.eraseIdx_append_of_length_le (by omega), heq, hnil]
        simp
      rw [hr]
      refine ⟨hmap, Or.inl ⟨rfl, herase, hfr, ?_⟩⟩
      intro j cd hcd
      have hj := hpt j cd hcd
      refine ⟨hj.1, fun hcat => ?_⟩
      rcases hj.2 hcat with hd | ⟨u, hu, _⟩
      · exact hd
      · rw [hnil] at hu
        cases hu
    · rw [htimers] at ht
      have hlen : (pre ++ [r]).length ≤ i := by simp; omega
      rw [List.getElem?_eq_none hlen] at ht
      cases ht

theorem displayInv_step (input : Input) (s s1 : State) (h : DisplayInv s)
    (hstep : step input s = some s1) : DisplayInv s1 := by
  cases input with
  | advance d =>
    simp only [step, Option.some.injEq] at hstep
    subst hstep
    exact h
  | click k =>
    simp only [step] at hstep
    split at hstep
    · cases hstep
      exact displayInv_click k s h
    · cases hstep
  | timeout i => exact displayInv_timeout i s s1 h hstep
  | frame =>
    simp only [step, Option.some.injEq] at hstep
    subst hstep
    exact displayInv_frame s h

theorem displayInv_run (inputs : List Input) (s s1 : State) (h : DisplayInv s)
    (hrun : run inputs s = some s1) : DisplayInv s1 := by
  induction inputs generalizing s with
  | nil =>
    simp only [run, Option.some.injEq] at hrun
    subst hrun
    exact h
  | cons input rest ih =>
    simp only [run] at hrun
    cases hs : step input s with
    | none => simp [hs] at hrun
    | some s2 =>
      rw [hs] at hrun
      exact ih s2 (displayInv_step input s s2 h hs) hrun

theorem run_append (a b : List Input) (s : State) :
    run (a ++ b) s = (run a s).bind (run b) := by
  induction a generalizing s with
  | nil => simp [run]
  | cons input rest ih =>
    simp only [List.cons_append, run]
    cases step input s with
    | none => rfl
    | some s1 => simpa using ih s1

theorem startupInv_initializeMenuFilter (gtagDefined : Bool) (menuItems : List MenuItem)
    (filterButtons : List FilterButton) :
    StartupInv (initializeMenuFilter gtagDefined menuItems filterButtons) :=
  ⟨fun c => itemsToShow_eq _ c rfl, ⟨_, rfl, rfl⟩, Or.inl ⟨rfl, rfl, rfl⟩⟩

theorem startupInv_early (inputs : List Input) (hearly : ∀ input ∈ inputs, input.isEarly = true)
    (s s1 : State) (h : StartupInv s) (hrun : run inputs s = some s1) : StartupInv s1 := by
  induction inputs generalizing s with
  | nil =>
    simp only [run, Option.some.injEq] at hrun
    subst hrun
    exact h
  | cons input rest ih =>
    have hin := hearly input (List.mem_cons_self _ _)
    have hrest : ∀ x ∈ rest, x.isEarly = true := fun x hx => hearly x (List.mem_cons_of_mem _ hx)
    simp only [run] at hrun
    cases hs : step input s with
    | none => simp [hs] at hrun
    | some s2 =>
      rw [hs] at hrun
      refine ih hrest s2 ?_ hrun
      cases input with
      | advance d =>
        simp only [step, Option.some.injEq] at hs
        subst hs
        exact h
      | click k =>
        simp only [step] at hs
        split at hs
        · cases hs
          rcases clickHandler_cases k s with heq | ⟨hidle, c, _, h1, h2, h3, h4, h5, h6, _⟩
          · rw [heq]; exact h
          · obtain ⟨hmap, htm, hcase⟩ := h
            refine ⟨index_agrees_transfer s _ h6 (by rw [h5]) hmap, by rw [h3]; exact htm, ?_⟩
            rcases hcase with ⟨_, hfr, _⟩ | ⟨hb, _⟩
            · exact Or.inr ⟨h1, by rw [h4, hfr, h2]; rfl⟩
            · rw [hidle] at hb; cases hb
        · cases hs
      | timeout i => simp [Input.isEarly] at hin
      | frame => simp [Input.isEarly] at hin

theorem displayInv_of_startup (i : Nat) (s s1 : State) (h : StartupInv s)
    (hfire : fireTimer i s = some s1) : DisplayInv s1 := by
  obtain ⟨t, ht, _, _, rfl⟩ := fireTimer_eq_some hfire
  obtain ⟨hmap, ⟨t0, htm, hcb⟩, hcase⟩ := h
  have hi : i = 0 := by
    rw [htm] at ht
    cases i with
    | zero => rfl
    | succ n => simp at ht
  subst hi
  have ht0 : t = t0 := by
    rw [htm] at ht
    simpa using ht.symm
  subst ht0
  have herase : s.timers.eraseIdx 0 = [] := by rw [htm]; rfl
  rw [hcb]
  have hview : styleView (applyBurger s.menuItemsArray)
      = (styleView s.menuItemsArray).map
          (fun cd => (cd.1, if cd.1 = some "burger" then "block" else "none")) :=
    styleView_applyBurger _
  refine ⟨index_agrees_transfer s _ rfl ?_ hmap, ?_⟩
  · simp only [runCallback, hview, List.map_map]
    rfl
  · rcases hcase with ⟨hidle, hfr, hcc⟩ | ⟨hbusy, hfr⟩
    · refine Or.inl ⟨hidle, herase, ?_, ?_⟩
      · intro cb hcbm
        simp only [runCallback, hfr] at hcbm
        cases hcbm
      · intro j cd hcd
        simp only [runCallback, hview, List.getElem?_map] at hcd ⊢
        cases hj : (styleView s.menuItemsArray)[j]? with
        | none => simp [hj] at hcd
        | some cd0 =>
          simp only [hj, Option.map_some', Option.some.injEq] at hcd
          subst hcd
          rw [hcc]
          by_cases hb : cd0.1 = some "burger" <;> simp [hb]
    · exact Or.inr (Or.inl ⟨hbusy, herase, [], by simpa [runCallback] using hfr,
        fun cb hcbm => by cases hcbm⟩)

/-- Settled exclusivity once the start-up timer is out of the way: when the
start-up timer runs before the first frame is rendered (only clock advances and
clicks precede it), then after any further inputs, whenever `isFiltering` is
false, the displayed items are exactly the items bearing `currentCategory`, which
is also the bucket the index holds for it. -/
theorem settled_exclusivity_after_startup (gtagDefined : Bool) (menuItems : List MenuItem)
    (filterButtons : List FilterButton) (early late : List Input) (i : Nat) (s : State)
    (hearly : ∀ input ∈ early, input.isEarly = true)
    (hrun : run (early ++ Input.timeout i :: late)
      (initializeMenuFilter gtagDefined menuItems filterButtons) = some s)
    (hidle : s.isFiltering = false) :
    displayedItems s = itemsOfCategory s.menuItemsArray s.currentCategory ∧
    displayedItems s = itemsToShow s s.currentCategory := by
  rw [run_append] at hrun
  cases h1 : run early (initializeMenuFilter gtagDefined menuItems filterButtons) with
  | none => simp [h1] at hrun
  | some s1 =>
    rw [h1] at hrun
    simp only [Option.some_bind, run] at hrun
    cases h2 : step (Input.timeout i) s1 with
    | none => simp [h2] at hrun
    | some s2 =>
      rw [h2] at hrun
      simp only [Option.some_bind] at hrun
      have hs1 := startupInv_early early hearly _ s1
        (startupInv_initializeMenuFilter gtagDefined menuItems filterButtons) h1
      have hs2 := displayInv_of_startup i s1 s2 hs1 h2
      obtain ⟨hmap, hcase⟩ := displayInv_run late s2 s hs2 hrun
      rcases hcase with ⟨_, _, _, hset⟩ | ⟨hb, _⟩ | ⟨hb, _⟩
      · have hd := displayedItems_of_settled s hset
        exact ⟨hd, by rw [hd, hmap]⟩
      · rw [hidle] at hb; cases hb
      · rw [hidle] at hb; cases hb

/-- C6 at its failing input: the start-up timer overrides a selection. In the
scenario `pizza` is clicked at 10, its hide step runs in the frame at 16 and `B1`
is revealed; the start-up timer runs at 100; the reset timer runs at 150. The
state is then idle with `currentCategory = pizza`, whose bucket is `[2]`, while
the displayed items are the burger items `[0, 1]`. -/
theorem startup_timer_overrides_selection :
    run [Input.advance 10, Input.click 1, Input.advance 6, Input.frame, Input.timeout 1,
        Input.frame, Input.advance 84, Input.timeout 0, Input.advance 50, Input.timeout 0]
        scenarioStart = some scenarioAfterPizza ∧
    scenarioAfterPizza.isFiltering = false ∧
    scenarioAfterPizza.currentCategory = some "pizza" ∧
    displayedItems scenarioAfterPizza = [0, 1] ∧
    itemsToShow scenarioAfterPizza (some "pizza") = [2] ∧
    itemsOfCategory scenarioAfterPizza.menuItemsArray (some "pizza") = [2] ∧
    scenarioAfterPizza.timers = [] ∧ scenarioAfterPizza.frames = [] := by
  decide

/-- The settled-exclusivity theorem at a concrete input: after a `pizza` sequence
that starts once the start-up timer has run, exactly `B1` is displayed. -/
theorem settled_exclusivity_after_startup_example :
    scenarioPizzaSettled.isFiltering = false ∧
    scenarioPizzaSettled.currentCategory = some "pizza" ∧
    displayedItems scenarioPizzaSettled = [2] ∧
    displayedItems scenarioPizzaSettled
      = itemsOfCategory scenarioPizzaSettled.menuItemsArray scenarioPizzaSettled.currentCategory :=
  ⟨by decide, by decide, by decide,
    (settled_exclusivity_after_startup false scenarioItems scenarioButtons [Input.advance 100]
      [Input.click 1, Input.advance 16, Input.frame, Input.timeout 0, Input.frame,
        Input.advance 130, Input.timeout 0] 0 scenarioPizzaSettled
      (by decide) (by decide) (by decide)).1⟩

/-! ## The index stays in step with the items -/

theorem categoryMapLoop_congr (a b : List MenuItem) (idx : Nat) (m : CategoryMap)
    (h : a.map MenuItem.category = b.map MenuItem.category) :
    categoryMapLoop a idx m = categoryMapLoop b idx m := by
  induction a generalizing b idx m with
  | nil =>
    cases b with
    | nil => rfl
    | cons y ys => simp at h
  | cons x xs ih =>
    cases b with
    | nil => simp at h
    | cons y ys =>
      simp only [List.map_cons, List.cons.injEq] at h
      have hv : categoryMapVisit m x idx = categoryMapVisit m y idx := by
        simp only [categoryMapVisit, h.1]
      simp only [categoryMapLoop, hv]
      exact ih ys (idx + 1) _ h.2

theorem runCallback_categories (cb : Callback) (s : State) :
    (runCallback cb s).categoryMap = s.categoryMap ∧
    (runCallback cb s).menuItemsArray.map MenuItem.category
      = s.menuItemsArray.map MenuItem.category := by
  have hmod : ∀ (f : MenuItem → MenuItem) (k : Nat) (l : List MenuItem),
      (∀ it, (f it).category = it.category) →
      (l.modify f k).map MenuItem.category = l.map MenuItem.category := by
    intro f k l hf
    rw [map_modify_comm MenuItem.category f id hf]
    apply List.ext_getElem?
    intro i
    simp only [List.getElem?_modify]
    cases (List.map MenuItem.category l)[i]? with
    | none => rfl
    | some a => by_cases hk : k = i <;> simp [hk]
  cases cb with
  | hideAndReveal c =>
    refine ⟨rfl, ?_⟩
    simp [runCallback, hideAll, Function.comp_def]
  | revealItem x => exact ⟨rfl, hmod _ _ _ (fun _ => rfl)⟩
  | revealFrame x => exact ⟨rfl, hmod _ _ _ (fun _ => rfl)⟩
  | resetFiltering => exact ⟨rfl, rfl⟩
  | initBurger =>
    refine ⟨rfl, ?_⟩
    simp only [runCallback, applyBurger, List.map_map]
    apply List.map_congr_left
    intro it _
    by_cases hc : it.category = some "burger" <;> simp [hc]

theorem foldl_runCallback_categories (cbs : List Callback) (acc : State) :
    (cbs.foldl (fun a cb => runCallback cb a) acc).categoryMap = acc.categoryMap ∧
    (cbs.foldl (fun a cb => runCallback cb a) acc).menuItemsArray.map MenuItem.category
      = acc.menuItemsArray.map MenuItem.category := by
  induction cbs generalizing acc with
  | nil => exact ⟨rfl, rfl⟩
  | cons cb rest ih =>
    obtain ⟨h1, h2⟩ := ih (runCallback cb acc)
    obtain ⟨h3, h4⟩ := runCallback_categories cb acc
    exact ⟨by rw [List.foldl_cons, h1, h3], by rw [List.foldl_cons, h2, h4]⟩

theorem step_categories (input : Input) (s s1 : State) (hstep : step input s = some s1) :
    s1.categoryMap = s.categoryMap ∧
    s1.menuItemsArray.map MenuItem.category = s.menuItemsArray.map MenuItem.category := by
  cases input with
  | advance d =>
    simp only [step, Option.some.injEq] at hstep
    subst hstep
    exact ⟨rfl, rfl⟩
  | click k =>
    simp only [step] at hstep
    split at hstep
    · cases hstep
      rcases clickHandler_cases k s with heq | ⟨_, c, _, _, _, _, _, h5, h6, _⟩
      · rw [heq]
        exact ⟨rfl, rfl⟩
      · exact ⟨h6, by rw [h5]⟩
    · cases hstep
  | timeout i =>
    obtain ⟨t, _, _, _, rfl⟩ := fireTimer_eq_some hstep
    exact runCallback_categories t.callback _
  | frame =>
    simp only [step, Option.some.injEq] at hstep
    subst hstep
    exact foldl_runCallback_categories s.frames _

/-- In every state reached from start-up the index is the one built from the
items as they are now: no step changes an item's category or the index. -/
theorem categoryMap_of_run (gtagDefined : Bool) (menuItems : List MenuItem)
    (filterButtons : List FilterButton) (inputs : List Input) (s : State)
    (hrun : run inputs (initializeMenuFilter gtagDefined menuItems filterButtons) = some s) :
    s.categoryMap = buildCategoryMap s.menuItemsArray := by
  have hgen : ∀ (inputs : List Input) (s0 s : State),
      s0.categoryMap = buildCategoryMap s0.menuItemsArray →
      run inputs s0 = some s → s.categoryMap = buildCategoryMap s.menuItemsArray := by
    intro inputs
    induction inputs with
    | nil =>
      intro s0 s h0 hr
      simp only [run, Option.some.injEq] at hr
      subst hr
      exact h0
    | cons input rest ih =>
      intro s0 s h0 hr
      simp only [run] at hr
      cases hs : step input s0 with
      | none => simp [hs] at hr
      | some s2 =>
        rw [hs] at hr
        obtain ⟨h1, h2⟩ := step_categories input s0 s2 hs
        refine ih s2 s ?_ hr
        rw [h1, h0]
        exact (categoryMapLoop_congr _ _ 0 [] h2).symm
  exact hgen inputs _ s rfl hrun

/-! ## An empty-category request and the start-up timer -/

/-- C9 at its failing input: the start-up timer overrides an empty-category
request. Right after start-up the scenario is idle, `empty` differs from
`currentCategory` and no item bears it. `empty` is clicked at 10 and accepted, its
hide step runs in the frame at 16, hides every item and registers only the reset
timer (delay 100, due 116); the start-up timer runs at 100 and shows the burger
items; the reset timer runs at 116. The state is then idle with
`currentCategory = empty`, whose bucket is empty, while the burger items
`[0, 1]` are displayed. -/
theorem startup_timer_overrides_empty_request :
    scenarioStart.isFiltering = false ∧
    scenarioStart.currentCategory ≠ some "empty" ∧
    (∀ item ∈ scenarioStart.menuItemsArray, item.category ≠ some "empty") ∧
    (run [Input.advance 10, Input.click 2, Input.advance 6, Input.frame] scenarioStart).map
        (fun s => (s.isFiltering, displayedItems s, s.timers))
      = some (true, [], [⟨100, 100, Callback.initBurger⟩, ⟨116, 100, Callback.resetFiltering⟩]) ∧
    run [Input.advance 10, Input.click 2, Input.advance 6, Input.frame, Input.advance 84,
        Input.timeout 0, Input.advance 16, Input.timeout 0] scenarioStart
      = some scenarioAfterEmpty ∧
    scenarioAfterEmpty.isFiltering = false ∧
    scenarioAfterEmpty.currentCategory = some "empty" ∧
    itemsToShow scenarioAfterEmpty (some "empty") = [] ∧
    displayedItems scenarioAfterEmpty = [0, 1] ∧
    scenarioAfterEmpty.timers = [] ∧ scenarioAfterEmpty.frames = [] := by
  decide

/-- Without the race an empty-category request ends with nothing displayed: when
the start-up timer runs before the first frame is rendered, then after any
further inputs, whenever `isFiltering` is false and no item bears
`currentCategory`, no item is displayed. -/
theorem empty_request_settles_after_startup (gtagDefined : Bool)
    (menuItems : List MenuItem) (filterButtons : List FilterButton)
    (early late : List Input) (i : Nat) (s : State)
    (hearly : ∀ input ∈ early, input.isEarly = true)
    (hrun : run (early ++ Input.timeout i :: late)
      (initializeMenuFilter gtagDefined menuItems filterButtons) = some s)
    (hidle : s.isFiltering = false)
    (hempty : ∀ item ∈ s.menuItemsArray, item.category ≠ s.currentCategory) :
    displayedItems s = [] := by
  rw [(settled_exclusivity_after_startup gtagDefined menuItems filterButtons early late i s
    hearly hrun hidle).1]
  exact itemsOfCategory_eq_nil _ _ hempty

end HookHook
